import Mathlib

/-!
# BarIntox: recipe costing, deletion guard, history snapshots and backup import

A shallow embedding of the logic of `src/App.jsx`.

Conventions of the embedding.

* Arithmetic is exact: a JavaScript number is a rational or `NaN` (`Num`). The
  rounding and overflow of binary64, and hence the infinities, are not modelled.
* A field that scripts read with coercions (`amount`, `abv`, `customPrice`) holds a
  `Val`: absent, `null`, a number or a string. The price and the volume of a stored
  ingredient are numbers, as `saveItem` writes them (`parseFloat(..) || 0`).
* A field that may be missing is an `Option`.
* React state is passed explicitly (`AppState`); the callback of a confirmation dialog
  is stored as data (`PendingAction`) and run by `dialogConfirm`.
* `JSON.stringify` followed by `JSON.parse` is modelled by the copy it produces
  (`jsonClone`); the text in between is not modelled.
-/

namespace BarIntox

/-! ## Numbers and values -/

/-- A JavaScript number over exact arithmetic: a rational, or `NaN`. -/
inductive Num where
  | fin (q : ℚ)
  | nan
  deriving DecidableEq

namespace Num

instance : OfNat Num n := ⟨fin n⟩

/-- The JavaScript `+` on numbers. -/
def add : Num → Num → Num
  | fin a, fin b => fin (a + b)
  | _, _ => nan

/-- The JavaScript `-` on numbers. -/
def sub : Num → Num → Num
  | fin a, fin b => fin (a - b)
  | _, _ => nan

/-- The JavaScript `*` on numbers. -/
def mul : Num → Num → Num
  | fin a, fin b => fin (a * b)
  | _, _ => nan

/-- The JavaScript `/` on numbers. A zero divisor gives an infinity or `NaN` in
JavaScript; the infinities are outside this model and the result is `nan` here. The
functions below divide by a constant or behind a guard. -/
def div : Num → Num → Num
  | fin a, fin b => if b = 0 then nan else fin (a / b)
  | _, _ => nan

instance : Add Num := ⟨add⟩
instance : Sub Num := ⟨sub⟩
instance : Mul Num := ⟨mul⟩
instance : Div Num := ⟨div⟩

/-- The JavaScript `a > b`: false as soon as one side is `NaN`. -/
def gt : Num → Num → Bool
  | fin a, fin b => decide (b < a)
  | _, _ => false

/-- The JavaScript `Math.ceil`. -/
def ceil : Num → Num
  | fin a => fin (⌈a⌉ : ℤ)
  | nan => nan

/-- The JavaScript truthiness of a number: neither `0` nor `NaN`. -/
def truthy : Num → Bool
  | fin a => decide (a ≠ 0)
  | nan => false

end Num

/-- The value of a loosely typed field: absent (`undefined`), `null`, a number or a
string. -/
inductive Val where
  | undefined
  | null
  | num (x : Num)
  | str (s : String)
  deriving DecidableEq

/-! ## Strings -/

/-- The characters matched by `\s` in a JavaScript regular expression, which are also the
characters trimmed by the string to number conversions. -/
def isJsSpace (c : Char) : Bool :=
  let n := c.toNat
  (9 ≤ n && n ≤ 13) || n = 0x20 || n = 0xA0 || n = 0x1680 || (0x2000 ≤ n && n ≤ 0x200A) ||
    n = 0x2028 || n = 0x2029 || n = 0x202F || n = 0x205F || n = 0x3000 || n = 0xFEFF

/-- The method `String.prototype.toLowerCase`, on the ASCII letters; the case mapping of
the other scripts is not modelled and leaves the character as it is. -/
def toLowerCase (s : String) : String :=
  ⟨s.data.map Char.toLower⟩

/-- The test `hay.includes(needle)`: `needle` occurs in `hay` as a block. -/
def includesChars (needle : List Char) : List Char → Bool
  | [] => needle.isEmpty
  | c :: cs => needle.isPrefixOf (c :: cs) || includesChars needle cs

/-- The method `String.prototype.includes`. -/
def includes (hay needle : String) : Bool :=
  includesChars needle.data hay.data

/-- The value of a run of decimal digits. -/
def digitsValue (ds : List Char) : ℕ :=
  ds.foldl (fun n c => 10 * n + (c.toNat - 48)) 0

/-- Ten to the power `e`, the exponent `e` being negative when `neg` is set. -/
def pow10 (neg : Bool) (e : ℕ) : ℚ :=
  if neg then 1 / (10 : ℚ) ^ e else (10 : ℚ) ^ e

/-- The longest prefix that is an unsigned decimal literal (`12`, `12.`, `12.5`, `.5`,
each with an optional exponent part), as its value and the rest of the text; `none`
when no prefix is such a literal. The literal `Infinity` is outside the number model
and is not recognised. -/
def scanUnsigned (cs : List Char) : Option (ℚ × List Char) :=
  let ip := cs.takeWhile Char.isDigit
  let r1 := cs.dropWhile Char.isDigit
  let (fp, r2) :=
    match r1 with
    | '.' :: t => if ip.isEmpty && (t.takeWhile Char.isDigit).isEmpty then ([], r1)
                  else (t.takeWhile Char.isDigit, t.dropWhile Char.isDigit)
    | _ => ([], r1)
  if ip.isEmpty && fp.isEmpty then none
  else
    let mant : ℚ := (digitsValue ip : ℚ) + (digitsValue fp : ℚ) / (10 : ℚ) ^ fp.length
    match r2 with
    | e :: t =>
      if e = 'e' || e = 'E' then
        let (neg, t1) :=
          match t with
          | '+' :: u => (false, u)
          | '-' :: u => (true, u)
          | _ => (false, t)
        let ed := t1.takeWhile Char.isDigit
        if ed.isEmpty then some (mant, r2)
        else some (mant * pow10 neg (digitsValue ed), t1.dropWhile Char.isDigit)
      else some (mant, r2)
    | [] => some (mant, [])

/-- The longest prefix that is a signed decimal literal. -/
def scanSigned : List Char → Option (ℚ × List Char)
  | '+' :: t => scanUnsigned t
  | '-' :: t => (scanUnsigned t).map (fun p => (-p.1, p.2))
  | cs => scanUnsigned cs

/-- The global function `parseFloat` on a string: leading white space is skipped and the
longest prefix that is a decimal literal is read; `NaN` when there is none. -/
def parseFloatStr (s : String) : Num :=
  match scanSigned (s.data.dropWhile isJsSpace) with
  | some (q, _) => Num.fin q
  | none => Num.nan

/-- The conversion of a string to a number (`Number(s)`, and the coercion applied by the
arithmetic operators): white space is trimmed on both sides, the empty text is `0`, a
decimal literal is its value and anything else is `NaN`. The literals with a radix
prefix (`0x`, `0o`, `0b`) are not modelled. -/
def stringToNumber (s : String) : Num :=
  let body := ((s.data.dropWhile isJsSpace).reverse.dropWhile isJsSpace).reverse
  if body.isEmpty then Num.fin 0
  else
    match scanSigned body with
    | some (q, []) => Num.fin q
    | _ => Num.nan

namespace Val

/-- The abstract operation `ToNumber`. -/
def toNumber : Val → Num
  | undefined => Num.nan
  | null => Num.fin 0
  | num x => x
  | str s => stringToNumber s

/-- The abstract operation `ToBoolean`. -/
def truthy : Val → Bool
  | undefined => false
  | null => false
  | num x => x.truthy
  | str s => !s.data.isEmpty

/-- The global function `parseFloat` on a value: the value is turned into text first, so
a number is read back as itself and `undefined` and `null` give `NaN`. -/
def parseFloat : Val → Num
  | undefined => Num.nan
  | null => Num.nan
  | num x => x
  | str s => parseFloatStr s

/-- The copy of a value made by `JSON.parse(JSON.stringify(v))`: `NaN` is written as
`null`, every other value is read back as itself (an absent field stays absent). -/
def jsonClone : Val → Val
  | num Num.nan => null
  | v => v

end Val

/-! ## Data model -/

/-- A stored ingredient. `price` and `volume` are numbers; `volume` may be missing. -/
structure Ingredient where
  id : String
  nameZh : Option String
  nameEn : Option String
  type : Option String
  price : ℚ
  volume : Option ℚ
  unit : Option String
  abv : Val

/-- One line of a recipe: the id of an ingredient and an amount. -/
structure RecipeItem where
  id : String
  amount : Val

/-- The fields of a recipe other than its history. -/
structure RecipeFields where
  id : String
  nameZh : Option String
  nameEn : Option String
  type : Option String
  baseSpirit : Option String
  technique : Option String
  glass : Option String
  tags : List String
  method : Option String
  flavorDescription : Option String
  image : Option String
  allergens : Option String
  customPrice : Val
  ingredients : Option (List RecipeItem)

/-- An entry `{date, snapshot}` of a history. -/
structure HistoryEntry (R : Type) where
  date : String
  snapshot : R

/-- A recipe: its fields and its history, newest entry first, of earlier versions. -/
inductive Recipe where
  | mk (fields : RecipeFields) (history : Option (List (HistoryEntry Recipe)))

namespace Recipe

/-- The fields of a recipe other than its history. -/
def fields : Recipe → RecipeFields
  | mk f _ => f

/-- The field `history`. -/
def history : Recipe → Option (List (HistoryEntry Recipe))
  | mk _ h => h

/-- The field `id`. -/
def id (r : Recipe) : String := r.fields.id

/-- The field `nameZh`. -/
def nameZh (r : Recipe) : Option String := r.fields.nameZh

/-- The field `ingredients`. -/
def ingredients (r : Recipe) : Option (List RecipeItem) := r.fields.ingredients

end Recipe

/-! ## Costing: `calculateRecipeStats` -/

/-- The constant `TARGET_COST_RATE = 0.25`. -/
def TARGET_COST_RATE : Num := Num.fin (1 / 4)

/-- The divisor `ing.volume || 1`. -/
def volumeOrOne (ing : Ingredient) : ℚ :=
  match ing.volume with
  | some v => if v = 0 then 1 else v
  | none => 1

/-- The expression `ing.price / (ing.volume || 1)`. -/
def costPerUnit (ing : Ingredient) : Num :=
  Num.fin ing.price / Num.fin (volumeOrOne ing)

/-- The test `ing.type !== 'other' && (ing.unit === 'ml' || !ing.unit)`. -/
def countsAsLiquid (ing : Ingredient) : Bool :=
  (ing.type != some "other") &&
    (ing.unit == some "ml" || ing.unit == none || ing.unit == some "")

/-- The three accumulators of `calculateRecipeStats`. -/
structure Totals where
  totalCost : Num
  totalVol : Num
  totalAlcoholVol : Num

/-- The body of the `forEach` of `calculateRecipeStats`, for one item. -/
def accumulate (ingredients : List Ingredient) (acc : Totals) (item : RecipeItem) : Totals :=
  match ingredients.find? (fun i => i.id == item.id) with
  | some ing =>
    let totalCost := acc.totalCost + costPerUnit ing * item.amount.toNumber
    if countsAsLiquid ing then
      { totalCost := totalCost
        totalVol := acc.totalVol + item.amount.parseFloat
        totalAlcoholVol :=
          acc.totalAlcoholVol + item.amount.parseFloat * (ing.abv.toNumber / 100) }
    else { acc with totalCost := totalCost }
  | none => acc

/-- The accumulators after the loop over `recipe.ingredients`, skipped when the list is
missing. -/
def recipeTotals (items : Option (List RecipeItem)) (ingredients : List Ingredient) : Totals :=
  match items with
  | some l => l.foldl (accumulate ingredients) ⟨0, 0, 0⟩
  | none => ⟨0, 0, 0⟩

/-- The value `techLower = recipe.technique ? recipe.technique.toLowerCase() : ''`. -/
def techLower (technique : Option String) : String :=
  match technique with
  | some t => if t.data.isEmpty then "" else toLowerCase t
  | none => ""

/-- The value `dilution` of `calculateRecipeStats`. -/
def dilution (technique : Option String) : Num :=
  if includes (techLower technique) "stir" || includes (techLower technique) "攪拌" then 20
  else if includes (techLower technique) "shake" || includes (techLower technique) "搖盪" then 30
  else 0

/-- The record returned by `calculateRecipeStats`. -/
structure Stats where
  totalCost : Num
  finalAbv : Num
  suggestedPrice : Num
  costRate : Num
  margin : Num
  finalVol : Num
  price : Val

/-- The function `calculateRecipeStats(recipe, ingredients)`; it reads the fields
`ingredients`, `technique` and `customPrice` of the recipe. -/
def calculateRecipeStats (recipe : RecipeFields) (ingredients : List Ingredient) : Stats :=
  let t := recipeTotals recipe.ingredients ingredients
  let totalCost := t.totalCost
  let finalVol := t.totalVol + dilution recipe.technique
  let finalAbv := if finalVol.gt 0 then (t.totalAlcoholVol / finalVol) * 100 else 0
  let suggestedPrice :=
    if totalCost.gt 0 then Num.ceil (totalCost / TARGET_COST_RATE / 10) * 10 else 0
  let price := if recipe.customPrice.truthy then recipe.customPrice else Val.num suggestedPrice
  let costRate := if price.toNumber.gt 0 then (totalCost / price.toNumber) * 100 else 0
  let margin := price.toNumber - totalCost
  { totalCost := totalCost, finalAbv := finalAbv, suggestedPrice := suggestedPrice,
    costRate := costRate, margin := margin, finalVol := finalVol, price := price }

/-- The helper `normalizeStr`: the empty text for a missing or empty name, else the name
in lower case with all white space removed. -/
def normalizeStr (str : Option String) : String :=
  match str with
  | some s => if s.data.isEmpty then "" else ⟨(toLowerCase s).data.filter (fun c => !isJsSpace c)⟩
  | none => ""

/-! ## Application state -/

/-- The kind of a dialog. -/
inductive DialogType where
  | info
  | confirm
  | alert
  deriving DecidableEq

/-- The callback `onConfirm` of a confirmation dialog, as data. -/
inductive PendingAction where
  | deleteRecipe (id : String)
  | deleteIngredient (id : String)
  deriving DecidableEq

/-- The state `dialog`. -/
structure Dialog where
  isOpen : Bool
  type : DialogType
  title : String
  message : String
  onConfirm : Option PendingAction
  deriving DecidableEq

/-- An ingredient as the editor holds it: `price` and `volume` are still the text of
their input fields. -/
structure IngredientDraft where
  id : String
  nameZh : Option String
  nameEn : Option String
  type : Option String
  price : Val
  volume : Val
  unit : Option String
  abv : Val

/-- The states `editorMode` and `editingItem`, which `startEdit` sets together. -/
inductive EditingItem where
  | ingredient (item : IngredientDraft)
  | recipe (item : Recipe)

/-- The state of the component `App` that the operations below read or write. -/
structure AppState where
  ingredients : List Ingredient
  recipes : List Recipe
  editor : Option EditingItem
  viewingItem : Option Recipe
  dialog : Dialog

/-- An exception thrown by the script. -/
inductive JsError where
  | typeError
  deriving DecidableEq

/-- The helper `closeDialog`. The script spreads the `dialog` of the render in which the
helper was created; a closed dialog is not rendered, and the model keeps the other fields
of the dialog being closed. -/
def closeDialog (st : AppState) : AppState :=
  { st with dialog := { st.dialog with isOpen := false } }

/-- The helper `showConfirm`. -/
def showConfirm (st : AppState) (title message : String) (onConfirm : PendingAction) :
    AppState :=
  { st with dialog := ⟨true, .confirm, title, message, some onConfirm⟩ }

/-- The helper `showAlert`. -/
def showAlert (st : AppState) (title message : String) : AppState :=
  { st with dialog := ⟨true, .alert, title, message, none⟩ }

/-! ## Deletion: `requestDelete` -/

/-- The test `r.ingredients.some(i => i.id === id)`, which throws when the recipe has no
list. -/
def usesIngredient (id : String) (r : Recipe) : Except JsError Bool :=
  match r.ingredients with
  | some items => .ok (items.any (fun i => i.id == id))
  | none => .error .typeError

/-- The list `usedIn = recipes.filter(r => r.ingredients.some(i => i.id === id))`. -/
def usedIn (id : String) : List Recipe → Except JsError (List Recipe)
  | [] => .ok []
  | r :: rs =>
    match usesIngredient id r with
    | .error e => .error e
    | .ok b =>
      match usedIn id rs with
      | .error e => .error e
      | .ok rest => .ok (if b then r :: rest else rest)

/-- The text `usedIn.map(r => r.nameZh).join('、')`; `join` writes a missing name as the
empty text. -/
def joinNames (rs : List Recipe) : String :=
  String.intercalate "、" (rs.map (fun r => r.nameZh.getD ""))

/-- The text of `${targetIng?.nameZh}`. -/
def targetName (ingredients : List Ingredient) (id : String) : String :=
  match ingredients.find? (fun i => i.id == id) with
  | some ing => ing.nameZh.getD "undefined"
  | none => "undefined"

/-- What is deleted. -/
inductive DeleteKind where
  | recipe
  | ingredient
  deriving DecidableEq

/-- The function `requestDelete(id, type)`. -/
def requestDelete (st : AppState) (id : String) (type : DeleteKind) :
    Except JsError AppState :=
  match type with
  | .recipe =>
    .ok (showConfirm st "刪除酒譜" "確定要刪除這個酒譜嗎？此操作無法復原。" (.deleteRecipe id))
  | .ingredient =>
    match usedIn id st.recipes with
    | .error e => .error e
    | .ok used =>
      if used.length > 0 then
        .ok (showAlert st "無法刪除此材料"
          ("此材料 (" ++ targetName st.ingredients id ++ ") 正被以下酒譜使用中：\n\n" ++
            joinNames used ++ "\n\n請先修改這些酒譜並移除此材料，才能進行刪除。"))
      else
        .ok (showConfirm st "刪除庫存材料"
          ("確定要刪除「" ++ targetName st.ingredients id ++ "」嗎？") (.deleteIngredient id))

/-- The callback of a confirmation dialog. -/
def runPending (st : AppState) : PendingAction → AppState
  | .deleteRecipe id =>
    closeDialog
      { st with recipes := st.recipes.filter (fun r => r.id != id), viewingItem := none }
  | .deleteIngredient id =>
    closeDialog
      { st with ingredients := st.ingredients.filter (fun i => i.id != id), editor := none }

/-- The main button of the dialog: it runs `onConfirm` when there is one, and closes a
dialog that is not a confirmation. -/
def dialogConfirm (st : AppState) : AppState :=
  let st1 :=
    match st.dialog.onConfirm with
    | some a => runPending st a
    | none => st
  if st.dialog.type != .confirm then { st1 with dialog := { st.dialog with isOpen := false } }
  else st1

/-! ## Backup import: `handleImport` -/

/-- The object read from a backup file. -/
structure ImportData where
  ingredients : Option (List Ingredient)
  recipes : Option (List Recipe)

/-- The import mode. -/
inductive ImportMode where
  | merge
  | overwrite
  deriving DecidableEq

/-- The truthiness of an optional text. -/
def nonEmptyText (s : Option String) : Bool :=
  match s with
  | some t => !t.data.isEmpty
  | none => false

/-- The filter of the merge of ingredients: the incoming `newI` is kept. -/
def keepIngredient (prev : List Ingredient) (newI : Ingredient) : Bool :=
  let idExists := prev.any (fun oldI => oldI.id == newI.id)
  let nameExists := prev.any (fun oldI =>
    normalizeStr oldI.nameZh == normalizeStr newI.nameZh ||
      (nonEmptyText oldI.nameEn && normalizeStr oldI.nameEn == normalizeStr newI.nameEn))
  !idExists && !nameExists

/-- The updater given to `setIngredients` in merge mode. -/
def mergeIngredients (prev incoming : List Ingredient) : List Ingredient :=
  prev ++ incoming.filter (keepIngredient prev)

/-- The filter of the merge of recipes: the incoming `newI` is kept. -/
def keepRecipe (prev : List Recipe) (newI : Recipe) : Bool :=
  let idExists := prev.any (fun oldI => oldI.id == newI.id)
  let nameExists := prev.any (fun oldI => normalizeStr oldI.nameZh == normalizeStr newI.nameZh)
  !idExists && !nameExists

/-- The updater given to `setRecipes` in merge mode. -/
def mergeRecipes (prev incoming : List Recipe) : List Recipe :=
  prev ++ incoming.filter (keepRecipe prev)

/-- The handler `reader.onload` of `handleImport(e, mode)`, which runs once a file was
chosen and read; `parsed` is the result of `JSON.parse` on the text of the file, `none`
when it throws. The updaters given to `setIngredients` and `setRecipes` are applied to
the current collections. -/
def handleImport (st : AppState) (parsed : Option ImportData) (mode : ImportMode) : AppState :=
  match parsed with
  | none => showAlert st "錯誤" "檔案格式不正確"
  | some data =>
    match mode with
    | .overwrite =>
      showAlert
        { st with ingredients := data.ingredients.getD [], recipes := data.recipes.getD [] }
        "還原成功" "資料已完全覆蓋"
    | .merge =>
      showAlert
        { st with
          ingredients := mergeIngredients st.ingredients (data.ingredients.getD [])
          recipes := mergeRecipes st.recipes (data.recipes.getD []) }
        "合併成功" "新資料已加入，重複項目已自動跳過"

/-! ## Saving: `saveItem` -/

/-- The expression `parseFloat(v) || 0`. -/
def parseFloatOrZero (v : Val) : ℚ :=
  match v.parseFloat with
  | Num.fin q => q
  | Num.nan => 0

/-- The copy `JSON.parse(JSON.stringify(item))` of a recipe item. -/
def RecipeItem.jsonClone (item : RecipeItem) : RecipeItem :=
  { item with amount := item.amount.jsonClone }

/-- The copy `JSON.parse(JSON.stringify(r))` of the fields of a recipe. -/
def RecipeFields.jsonClone (f : RecipeFields) : RecipeFields :=
  { f with
    customPrice := f.customPrice.jsonClone
    ingredients := f.ingredients.map (fun l => l.map RecipeItem.jsonClone) }

/-- The value `oldVersion` of `saveItem`: the copy of the stored record, its `history`
deleted. -/
def snapshotOf (stored : Recipe) : Recipe :=
  .mk stored.fields.jsonClone none

/-- The updater given to `setIngredients` by `saveItem`. -/
def saveIngredient (prev : List Ingredient) (newItem : Ingredient) : List Ingredient :=
  match prev.find? (fun i => i.id == newItem.id) with
  | some _ => prev.map (fun i => if i.id == newItem.id then newItem else i)
  | none => prev ++ [newItem]

/-- The updater given to `setRecipes` by `saveItem`; `newItem` is the edited recipe with
its `customPrice` made a number and `now` is `new Date().toISOString()`. -/
def saveRecipe (prev : List Recipe) (newItem : Recipe) (now : String) : List Recipe :=
  match prev.find? (fun r => r.id == newItem.id) with
  | some stored =>
    let newItem1 : Recipe :=
      .mk newItem.fields (some (⟨now, snapshotOf stored⟩ :: stored.history.getD []))
    prev.map (fun r => if r.id == newItem.id then newItem1 else r)
  | none => prev ++ [newItem]

/-- The function `saveItem`, for the item `item` of the editor. -/
def saveItem (st : AppState) (item : EditingItem) (now : String) : AppState :=
  match item with
  | .ingredient d =>
    if !nonEmptyText d.nameZh then showAlert st "錯誤" "請輸入名稱"
    else
      let newItem : Ingredient :=
        { id := d.id, nameZh := d.nameZh, nameEn := d.nameEn, type := d.type,
          price := parseFloatOrZero d.price,
          volume := some (parseFloatOrZero d.volume), unit := d.unit, abv := d.abv }
      { st with ingredients := saveIngredient st.ingredients newItem, editor := none }
  | .recipe r =>
    if !nonEmptyText r.nameZh then showAlert st "錯誤" "請輸入名稱"
    else
      let newItem : Recipe :=
        .mk { r.fields with customPrice := .num (Num.fin (parseFloatOrZero r.fields.customPrice)) }
          r.history
      { st with recipes := saveRecipe st.recipes newItem now, editor := none }

/-! ## Definitions that follow the wording of the specification -/

/-- The sum of a list of numbers. -/
def Num.sum (l : List Num) : Num :=
  l.foldr (fun x s => x + s) (Num.fin 0)

/-- The volume an ingredient is costed with, in the words of the specification: its
`volume` when it is non-zero, and `1` when it is zero or absent. -/
def specVolume (ing : Ingredient) : ℚ :=
  if ing.volume = none ∨ ing.volume = some 0 then 1 else ing.volume.getD 1

/-- The terms of the total cost, in the words of the specification: one term
`(price / v) * amount` for each item whose id resolves to an ingredient of the catalog. -/
def specCostTerms (items : List RecipeItem) (cat : List Ingredient) : List Num :=
  items.filterMap (fun item =>
    (cat.find? (fun i => i.id == item.id)).map
      (fun ing => Num.fin (ing.price / specVolume ing) * item.amount.toNumber))

/-- The recipe `r` lists an item with the id `id`. -/
def Recipe.references (r : Recipe) (id : String) : Prop :=
  ∃ items, r.ingredients = some items ∧ ∃ i ∈ items, i.id = id

/-- No value held by the fields is `NaN`. -/
def RecipeFields.nanFree (f : RecipeFields) : Prop :=
  f.customPrice ≠ .num .nan ∧
    ∀ items, f.ingredients = some items → ∀ item ∈ items, item.amount ≠ .num .nan

/-- The conflict of an incoming ingredient with an existing one when the normalized
English names are compared whether or not there is one: an equal id, a normalized-equal
`nameZh` or a normalized-equal `nameEn`. -/
def claimedConflictIngredient (old new : Ingredient) : Prop :=
  old.id = new.id ∨ normalizeStr old.nameZh = normalizeStr new.nameZh ∨
    normalizeStr old.nameEn = normalizeStr new.nameEn

instance (old new : Ingredient) : Decidable (claimedConflictIngredient old new) := by
  unfold claimedConflictIngredient; infer_instance

/-- The test the filter of the merge applies to an incoming ingredient and an existing
one: an equal id, a normalized-equal `nameZh`, or a normalized-equal `nameEn` when the
`nameEn` of the existing ingredient is not the empty text. -/
def conflictIngredient (old new : Ingredient) : Prop :=
  old.id = new.id ∨ normalizeStr old.nameZh = normalizeStr new.nameZh ∨
    (nonEmptyText old.nameEn = true ∧ normalizeStr old.nameEn = normalizeStr new.nameEn)

instance (old new : Ingredient) : Decidable (conflictIngredient old new) := by
  unfold conflictIngredient; infer_instance

/-- The conflict of an incoming recipe with an existing one: an equal id or a
normalized-equal `nameZh`. -/
def conflictRecipe (old new : Recipe) : Prop :=
  old.id = new.id ∨ normalizeStr old.nameZh = normalizeStr new.nameZh

instance (old new : Recipe) : Decidable (conflictRecipe old new) := by
  unfold conflictRecipe; infer_instance

/-! ## Example inputs -/

/-- An ingredient: a bottle of 750 ml at 600, 40 % alcohol. -/
def exampleGin : Ingredient :=
  { id := "gin", nameZh := some "琴酒", nameEn := some "Gin", type := some "alcohol",
    price := 600, volume := some 750, unit := some "ml", abv := .num 40 }

/-- A recipe with no item, no technique and no price. -/
def emptyFields : RecipeFields :=
  { id := "r0", nameZh := some "空", nameEn := none, type := none, baseSpirit := none,
    technique := none, glass := none, tags := [], method := none, flavorDescription := none,
    image := none, allergens := none, customPrice := .undefined, ingredients := none }

/-- A stirred recipe of 45 ml of gin. -/
def exampleStirred : RecipeFields :=
  { emptyFields with
    id := "r1", nameZh := some "馬丁尼", technique := some "攪拌",
    ingredients := some [⟨"gin", .num 45⟩] }

/-- An item whose id is the id of no ingredient. -/
def danglingItem : RecipeItem := ⟨"gone", .num 30⟩

/-- A closed dialog. -/
def emptyDialog : Dialog := ⟨false, .info, "", "", none⟩

/-- A stored recipe that has no ingredient list. -/
def listlessRecipe : Recipe := .mk emptyFields none

/-- The stirred example as a stored recipe, with an empty history. -/
def stirredRecipe : Recipe := .mk exampleStirred (some [])

/-- The stirred example edited: shaken, and priced 200 in the text of the input field. -/
def editedRecipe : Recipe :=
  .mk { exampleStirred with technique := some "搖盪", customPrice := .str "200" } (some [])

/-- A state with one ingredient and one recipe that has no ingredient list. -/
def listlessState : AppState :=
  { ingredients := [exampleGin], recipes := [listlessRecipe], editor := none,
    viewingItem := none, dialog := emptyDialog }

/-- A state with one ingredient and the recipe that uses it. -/
def exampleState : AppState :=
  { ingredients := [exampleGin], recipes := [stirredRecipe], editor := none,
    viewingItem := none, dialog := emptyDialog }

/-- An ingredient with an empty English name. -/
def vodkaNoEn : Ingredient :=
  { id := "vodka", nameZh := some "伏特加", nameEn := some "", type := some "alcohol",
    price := 500, volume := some 700, unit := some "ml", abv := .num 40 }

/-- Another ingredient with an empty English name. -/
def limeNoEn : Ingredient :=
  { id := "lime", nameZh := some "萊姆汁", nameEn := some "", type := some "soft",
    price := 100, volume := some 500, unit := some "ml", abv := .num 0 }

/-- The gin of the examples under another id, its name written with spaces. -/
def ginRenamed : Ingredient :=
  { exampleGin with id := "gin2", nameZh := some " 琴 酒 ", nameEn := some "London Dry" }

/-- A backup file that holds the renamed gin and no recipe field. -/
def exampleBackup : ImportData :=
  { ingredients := some [ginRenamed, limeNoEn], recipes := none }

/-- A state whose only ingredient has an empty English name. -/
def vodkaState : AppState :=
  { ingredients := [vodkaNoEn], recipes := [], editor := none, viewingItem := none,
    dialog := emptyDialog }

/-- A backup file that holds one ingredient with an empty English name. -/
def limeBackup : ImportData :=
  { ingredients := some [limeNoEn], recipes := some [] }

/-! ## Backup export and the editor: JSON copies, `startEdit` -/

/-- The copy `JSON.parse(JSON.stringify(i))` of an ingredient. -/
def Ingredient.jsonClone (i : Ingredient) : Ingredient :=
  { i with abv := i.abv.jsonClone }

mutual
/-- The copy `JSON.parse(JSON.stringify(r))` of a recipe, history included. -/
def Recipe.jsonClone : Recipe → Recipe
  | .mk f h => .mk f.jsonClone (jsonCloneHistory h)
/-- The JSON copy of the field `history`. -/
def jsonCloneHistory :
    Option (List (HistoryEntry Recipe)) → Option (List (HistoryEntry Recipe))
  | none => none
  | some l => some (jsonCloneEntries l)
/-- The JSON copy of a list of history entries. -/
def jsonCloneEntries : List (HistoryEntry Recipe) → List (HistoryEntry Recipe)
  | [] => []
  | e :: es => jsonCloneEntry e :: jsonCloneEntries es
/-- The JSON copy of a history entry. -/
def jsonCloneEntry : HistoryEntry Recipe → HistoryEntry Recipe
  | ⟨d, s⟩ => ⟨d, Recipe.jsonClone s⟩
end

/-- The value `JSON.parse(JSON.stringify({ingredients, recipes}))` that an import reads
from the file written by the export button. The text itself is not modelled: it always
parses, and every value is read back as its JSON copy. -/
def exportedBackup (ingredients : List Ingredient) (recipes : List Recipe) :
    Option ImportData :=
  some { ingredients := some (ingredients.map Ingredient.jsonClone)
         recipes := some (recipes.map Recipe.jsonClone) }

/-- The ingredient `startEdit` gives the editor for a new ingredient. -/
def blankIngredient (id : String) : IngredientDraft :=
  { id := id, nameZh := some "", nameEn := some "", type := some "alcohol",
    price := .str "", volume := .num 700, unit := some "ml", abv := .num 0 }

/-- The recipe `startEdit` gives the editor for a new recipe. -/
def blankRecipe (id : String) : Recipe :=
  .mk { id := id, nameZh := some "", nameEn := some "", type := some "classic",
        baseSpirit := some "", technique := some "", glass := some "", tags := [],
        method := some "", flavorDescription := some "", image := some "",
        allergens := some "", customPrice := .str "", ingredients := some [] }
    (some [])

/-- A stored ingredient as the editor holds it. -/
def Ingredient.toDraft (i : Ingredient) : IngredientDraft :=
  { id := i.id, nameZh := i.nameZh, nameEn := i.nameEn, type := i.type,
    price := .num (.fin i.price),
    volume := match i.volume with
      | some v => .num (.fin v)
      | none => .undefined
    unit := i.unit, abv := i.abv }

/-- The arguments `(type, item)` of `startEdit`: a new item of a kind, or a stored one. -/
inductive EditRequest where
  | newIngredient
  | newRecipe
  | ingredient (item : Ingredient)
  | recipe (item : Recipe)

/-- The function `startEdit(type, item)`; `freshId` is the value of `generateId()`. -/
def startEdit (st : AppState) (req : EditRequest) (freshId : String) : AppState :=
  { st with
    editor := some (match req with
      | .newIngredient => .ingredient (blankIngredient freshId)
      | .newRecipe => .recipe (blankRecipe freshId)
      | .ingredient i => .ingredient i.jsonClone.toDraft
      | .recipe r => .recipe r.jsonClone)
    viewingItem := none }

/-- The value `newItem` of `saveItem` for an ingredient: the item of the editor with its
price and volume made numbers. -/
def storedIngredient (d : IngredientDraft) : Ingredient :=
  { id := d.id, nameZh := d.nameZh, nameEn := d.nameEn, type := d.type,
    price := parseFloatOrZero d.price, volume := some (parseFloatOrZero d.volume),
    unit := d.unit, abv := d.abv }

/-- The value `newItem` of `saveItem` for a recipe, before any history is attached: the
item of the editor with its custom price made a number. -/
def storedRecipe (r : Recipe) : Recipe :=
  .mk { r.fields with customPrice := .num (.fin (parseFloatOrZero r.fields.customPrice)) }
    r.history

/-! ## Further definitions that follow the wording of the specification -/

/-- No value held by the ingredient is `NaN`. -/
def Ingredient.nanFree (i : Ingredient) : Prop :=
  i.abv ≠ .num .nan

mutual
/-- No value held by the recipe, history included, is `NaN`. -/
def Recipe.nanFree : Recipe → Prop
  | .mk f h => f.nanFree ∧ historyNanFree h
/-- No value held by the field `history` is `NaN`. -/
def historyNanFree : Option (List (HistoryEntry Recipe)) → Prop
  | none => True
  | some l => entriesNanFree l
/-- No value held by the entries is `NaN`. -/
def entriesNanFree : List (HistoryEntry Recipe) → Prop
  | [] => True
  | e :: es => entryNanFree e ∧ entriesNanFree es
/-- No value held by the entry is `NaN`. -/
def entryNanFree : HistoryEntry Recipe → Prop
  | ⟨_, s⟩ => Recipe.nanFree s
end

/-- The ingredient counts for the volume, in the words of the specification: its
category is not `other` and its unit is `ml` or unspecified. -/
def isLiquid (ing : Ingredient) : Prop :=
  ing.type ≠ some "other" ∧ (ing.unit = some "ml" ∨ ing.unit = none ∨ ing.unit = some "")

instance (ing : Ingredient) : Decidable (isLiquid ing) := by
  unfold isLiquid; infer_instance

/-- The terms of the liquid volume, in the words of the specification: the amount of each
item that resolves to an ingredient that counts for the volume. -/
def specVolumeTerms (items : List RecipeItem) (cat : List Ingredient) : List Num :=
  items.filterMap (fun item =>
    match cat.find? (fun i => i.id == item.id) with
    | some ing => if isLiquid ing then some item.amount.parseFloat else none
    | none => none)

/-- The terms of the alcohol volume, in the words of the specification: `amount * abv / 100`
for each item that resolves to an ingredient that counts for the volume. -/
def specAlcoholTerms (items : List RecipeItem) (cat : List Ingredient) : List Num :=
  items.filterMap (fun item =>
    match cat.find? (fun i => i.id == item.id) with
    | some ing =>
      if isLiquid ing then some (item.amount.parseFloat * ing.abv.toNumber / 100) else none
    | none => none)

/-- The text `needle` occurs in the text `hay` as a block of consecutive characters. -/
def containsText (hay needle : String) : Prop :=
  needle.data <:+: hay.data

instance (hay needle : String) : Decidable (containsText hay needle) := by
  unfold containsText; infer_instance

/-- The dilution, in the words of the specification, from the technique in lower case. -/
def specDilution (lowered : String) : Num :=
  if containsText lowered "stir" ∨ containsText lowered "攪拌" then 20
  else if containsText lowered "shake" ∨ containsText lowered "搖盪" then 30
  else 0

/-! ## Further example inputs -/

/-- A state with no ingredient and no recipe. -/
def emptyState : AppState :=
  { ingredients := [], recipes := [], editor := none, viewingItem := none,
    dialog := emptyDialog }

/-- Another ingredient under the id of `limeNoEn`. -/
def lemonSameId : Ingredient :=
  { limeNoEn with nameZh := some "檸檬汁", nameEn := some "Lemon" }

/-- A backup file whose two ingredients share an id. -/
def twinBackup : ImportData :=
  { ingredients := some [limeNoEn, lemonSameId], recipes := some [] }

/-- The gin of the examples with an English name made of one space. -/
def ginBlankEn : Ingredient := { exampleGin with nameEn := some " " }

/-- A state whose only ingredient has an English name made of one space. -/
def blankEnState : AppState :=
  { ingredients := [ginBlankEn], recipes := [], editor := none, viewingItem := none,
    dialog := emptyDialog }

/-- The stirred example with a second line of gin whose amount field was cleared. -/
def clearedAmount : RecipeFields :=
  { exampleStirred with ingredients := some [⟨"gin", .num 45⟩, ⟨"gin", .str ""⟩] }

/-- The stirred example with a second line of gin of amount 0. -/
def zeroAmount : RecipeFields :=
  { exampleStirred with ingredients := some [⟨"gin", .num 45⟩, ⟨"gin", .num 0⟩] }

/-- A new recipe as the editor holds it once it was given a name. -/
def namedBlankRecipe : Recipe :=
  .mk { (blankRecipe "r9").fields with nameZh := some "曼哈頓" } (blankRecipe "r9").history

/-- The lime of the examples as the editor holds it, its price typed as `120`. -/
def limeDraft : IngredientDraft :=
  { limeNoEn.toDraft with price := .str "120" }

/-- The gin of the examples as the editor holds it, its price typed as `650`. -/
def ginDraft : IngredientDraft :=
  { exampleGin.toDraft with price := .str "650" }

/-- A garnish: category `other`, priced by the piece. -/
def olive : Ingredient :=
  { id := "olive", nameZh := some "橄欖", nameEn := some "Olive", type := some "other",
    price := 100, volume := some 50, unit := some "顆", abv := .num 0 }

/-! ## Neat pours: `SingleItemScreen` and the single mode of `QuickCalcScreen` -/

/-- The amounts of the list `sizes` of `SingleItemScreen`: a shot and a glass. -/
def singleItemSizes : List Num := [30, 50]

/-- The value `cost = costPerUnit * size.amount` of `SingleItemScreen`, where
`costPerUnit = ing.price / (ing.volume || 1)`. -/
def singleItemCost (ing : Ingredient) (amount : Num) : Num :=
  costPerUnit ing * amount

/-- The value `suggest = Math.ceil(cost / TARGET_COST_RATE / 10) * 10` of
`SingleItemScreen`. -/
def singleItemSuggest (ing : Ingredient) (amount : Num) : Num :=
  Num.ceil (singleItemCost ing amount / TARGET_COST_RATE / 10) * 10

/-- The states of `QuickCalcScreen` that its single mode reads: the texts `p` and `v` of
the price and volume fields and the two rates, in percent. -/
structure QuickCalc where
  p : Val
  v : Val
  rateA : Val
  rateB : Val

/-- The initial states: `p = ''`, `v = 700`, `rateA = 25`, `rateB = 30`. -/
def QuickCalc.initial : QuickCalc :=
  { p := .str "", v := .num 700, rateA := .num 25, rateB := .num 30 }

/-- The value `priceNum = parseFloat(p) || 0`. -/
def QuickCalc.priceNum (q : QuickCalc) : ℚ :=
  parseFloatOrZero q.p

/-- The value `volNum = parseFloat(v) || 700`. -/
def QuickCalc.volNum (q : QuickCalc) : ℚ :=
  match q.v.parseFloat with
  | Num.fin x => if x = 0 then 700 else x
  | Num.nan => 700

/-- The value `costPerMl = priceNum / volNum`. -/
def QuickCalc.costPerMl (q : QuickCalc) : Num :=
  Num.fin q.priceNum / Num.fin q.volNum

/-- The volumes of the rows of the reference table: 30, 50, 60 and the whole bottle. -/
def QuickCalc.rowVolumes (q : QuickCalc) : List Num :=
  [30, 50, 60, Num.fin q.volNum]

/-- The value `cost = costPerMl * row.vol` of a row. -/
def QuickCalc.rowCost (q : QuickCalc) (vol : Num) : Num :=
  q.costPerMl * vol

/-- The value `Math.ceil(cost / (rate/100) / 10) * 10` of a row, for a rate in percent. -/
def quickPrice (cost : Num) (rate : Val) : Num :=
  Num.ceil (cost / (rate.toNumber / 100) / 10) * 10

/-- The rows of the reference table, which is shown when `costPerMl > 0`: the cost and
the two prices `priceA` and `priceB` of each volume. -/
def QuickCalc.rows (q : QuickCalc) : List (Num × Num × Num) :=
  q.rowVolumes.map (fun vol =>
    (q.rowCost vol, quickPrice (q.rowCost vol) q.rateA, quickPrice (q.rowCost vol) q.rateB))

/-! ## Definitions that follow the wording of the last claims -/

/-- The custom price is set and non-zero: it is present, it is not the empty text, and it
is not the number `0` (nor `NaN`, which no stored price is). -/
def isSetNonZero (v : Val) : Prop :=
  v ≠ .undefined ∧ v ≠ .null ∧ v ≠ .str "" ∧ v ≠ .num (.fin 0) ∧ v ≠ .num .nan

/-- The cost per millilitre of the quick calculator as claim C24 words it:
`price / (volume || 1)`. -/
def claimedQuickCostPerMl (q : QuickCalc) : Num :=
  Num.fin q.priceNum /
    Num.fin (match q.v.parseFloat with
      | Num.fin x => if x = 0 then 1 else x
      | Num.nan => 1)

/-- The recipes of a collection that list an item with the id `id`, in collection
order. -/
def blockingRecipes (recipes : List Recipe) (id : String) : List Recipe :=
  recipes.filter (fun r => decide (∃ items, r.ingredients = some items ∧ ∃ i ∈ items, i.id = id))

/-! ## Last example inputs -/

/-- A state whose first recipe has no ingredient list and whose second lists the gin. -/
def mixedState : AppState :=
  { ingredients := [exampleGin], recipes := [listlessRecipe, stirredRecipe], editor := none,
    viewingItem := none, dialog := emptyDialog }

/-- The quick calculator with the price `700` typed and the volume field cleared. -/
def clearedVolume : QuickCalc :=
  { QuickCalc.initial with p := .str "700", v := .str "" }

/-- An ingredient as the editor holds it, its name field empty. -/
def namelessDraft : IngredientDraft := blankIngredient "i9"

/-- The stirred example with the olive added, in two orders. -/
def ginThenOlive : RecipeFields :=
  { exampleStirred with ingredients := some [⟨"gin", .num 45⟩, ⟨"olive", .num 1⟩] }

/-- The stirred example with the olive added, the olive first. -/
def oliveThenGin : RecipeFields :=
  { exampleStirred with ingredients := some [⟨"olive", .num 1⟩, ⟨"gin", .num 45⟩] }

/-- The example recipe with no technique. -/
def exampleBuilt : RecipeFields := { exampleStirred with technique := none }

/-- The example recipe, shaken. -/
def exampleShaken : RecipeFields := { exampleStirred with technique := some "搖盪" }

/-- The example recipe with a custom price of 200. -/
def examplePriced : RecipeFields := { exampleStirred with customPrice := .num 200 }

/-! ## Definitions and example inputs for the amended claims -/

/-- The conflict of an incoming ingredient with an existing one, in the words of the
specification: an equal id, a normalized-equal `nameZh`, or a normalized-equal `nameEn`
when both sides have one. -/
def specConflictIngredient (old new : Ingredient) : Prop :=
  old.id = new.id ∨ normalizeStr old.nameZh = normalizeStr new.nameZh ∨
    (nonEmptyText old.nameEn = true ∧ nonEmptyText new.nameEn = true ∧
      normalizeStr old.nameEn = normalizeStr new.nameEn)

instance (old new : Ingredient) : Decidable (specConflictIngredient old new) := by
  unfold specConflictIngredient; infer_instance

/-- A stored recipe under the id of the stirred example, with another name, shaken, and
with one entry in its history. -/
def sameIdRecipe : Recipe :=
  .mk { exampleStirred with nameZh := some "琴費士", technique := some "搖盪" }
    (some [⟨"2023-06-01T00:00:00.000Z", .mk emptyFields none⟩])

/-- A state whose two recipes share the id `r1`, as a merged or restored backup can
leave it. -/
def sameIdState : AppState :=
  { ingredients := [exampleGin], recipes := [stirredRecipe, sameIdRecipe], editor := none,
    viewingItem := none, dialog := emptyDialog }

/-- The quick calculator with the price `700` typed and the volume left at 700. -/
def typedPrice : QuickCalc :=
  { QuickCalc.initial with p := .str "700" }

/-! ## Lemmas on numbers -/

namespace Num

@[simp] theorem ofNat_eq_fin (n : ℕ) : (OfNat.ofNat n : Num) = fin (n : ℚ) := rfl
@[simp] theorem fin_add_fin (a b : ℚ) : fin a + fin b = fin (a + b) := rfl
@[simp] theorem fin_sub_fin (a b : ℚ) : fin a - fin b = fin (a - b) := rfl
@[simp] theorem fin_mul_fin (a b : ℚ) : fin a * fin b = fin (a * b) := rfl
theorem fin_div_fin (a b : ℚ) : fin a / fin b = if b = 0 then nan else fin (a / b) := rfl
@[simp] theorem fin_div_fin_of_ne (a : ℚ) {b : ℚ} (h : b ≠ 0) :
    fin a / fin b = fin (a / b) := by
  rw [fin_div_fin, if_neg h]
@[simp] theorem nan_add (x : Num) : nan + x = nan := rfl
@[simp] theorem add_nan (x : Num) : x + nan = nan := by cases x <;> rfl
@[simp] theorem nan_mul (x : Num) : nan * x = nan := rfl
@[simp] theorem mul_nan (x : Num) : x * nan = nan := by cases x <;> rfl
@[simp] theorem nan_div (x : Num) : nan / x = nan := rfl
@[simp] theorem div_nan (x : Num) : x / nan = nan := by cases x <;> rfl
@[simp] theorem nan_sub (x : Num) : nan - x = nan := rfl
@[simp] theorem sub_nan (x : Num) : x - nan = nan := by cases x <;> rfl
@[simp] theorem gt_fin_fin (a b : ℚ) : (fin a).gt (fin b) = decide (b < a) := rfl
@[simp] theorem nan_gt (x : Num) : nan.gt x = false := rfl
@[simp] theorem gt_nan (x : Num) : x.gt nan = false := by cases x <;> rfl
@[simp] theorem ceil_fin (a : ℚ) : ceil (fin a) = fin (⌈a⌉ : ℤ) := rfl
@[simp] theorem ceil_nan : ceil nan = nan := rfl

theorem add_assoc_num (a b c : Num) : a + b + c = a + (b + c) := by
  cases a <;> cases b <;> cases c <;> simp [add_assoc]

theorem add_fin_zero (a : Num) : a + fin 0 = a := by cases a <;> simp

theorem fin_zero_add (a : Num) : fin 0 + a = a := by cases a <;> simp

end Num

/-! ## Lemmas on `calculateRecipeStats` -/

theorem specVolume_eq (ing : Ingredient) : specVolume ing = volumeOrOne ing := by
  unfold specVolume volumeOrOne
  cases h : ing.volume with
  | none => simp
  | some v => by_cases hv : v = 0 <;> simp [hv]

theorem volumeOrOne_ne_zero (ing : Ingredient) : volumeOrOne ing ≠ 0 := by
  unfold volumeOrOne
  cases h : ing.volume with
  | none => simp
  | some v => by_cases hv : v = 0 <;> simp [hv]

theorem costPerUnit_eq (ing : Ingredient) :
    costPerUnit ing = Num.fin (ing.price / volumeOrOne ing) := by
  simp [costPerUnit, volumeOrOne_ne_zero]

theorem accumulate_none {cat : List Ingredient} {item : RecipeItem}
    (h : cat.find? (fun i => i.id == item.id) = none) (acc : Totals) :
    accumulate cat acc item = acc := by
  simp [accumulate, h]

theorem find?_none_of_ids {cat : List Ingredient} {item : RecipeItem}
    (h : ∀ i ∈ cat, i.id ≠ item.id) : cat.find? (fun i => i.id == item.id) = none := by
  simp only [List.find?_eq_none, beq_iff_eq]
  exact h

theorem foldl_dangling (cat : List Ingredient) (pre post : List RecipeItem) (item : RecipeItem)
    (h : cat.find? (fun i => i.id == item.id) = none) (acc : Totals) :
    (pre ++ item :: post).foldl (accumulate cat) acc =
      (pre ++ post).foldl (accumulate cat) acc := by
  simp [List.foldl_append, accumulate_none h]

theorem foldl_all_dangling (cat : List Ingredient) (items : List RecipeItem)
    (h : ∀ item ∈ items, ∀ i ∈ cat, i.id ≠ item.id) (acc : Totals) :
    items.foldl (accumulate cat) acc = acc := by
  induction items generalizing acc with
  | nil => rfl
  | cons item rest ih =>
    rw [List.foldl_cons, accumulate_none (find?_none_of_ids (h item (List.mem_cons_self _ _)))]
    exact ih (fun x hx => h x (List.mem_cons_of_mem _ hx)) acc

theorem specCostTerms_cons (cat : List Ingredient) (item : RecipeItem)
    (rest : List RecipeItem) :
    specCostTerms (item :: rest) cat =
      match cat.find? (fun i => i.id == item.id) with
      | some ing =>
        (Num.fin (ing.price / specVolume ing) * item.amount.toNumber) :: specCostTerms rest cat
      | none => specCostTerms rest cat := by
  unfold specCostTerms
  cases h : cat.find? (fun i => i.id == item.id) <;> simp [List.filterMap_cons, h]

theorem accumulate_totalCost (cat : List Ingredient) (acc : Totals) (item : RecipeItem) :
    (accumulate cat acc item).totalCost =
      match cat.find? (fun i => i.id == item.id) with
      | some ing => acc.totalCost + Num.fin (ing.price / specVolume ing) * item.amount.toNumber
      | none => acc.totalCost := by
  unfold accumulate
  cases h : cat.find? (fun i => i.id == item.id) with
  | none => rfl
  | some ing =>
    simp only [specVolume_eq, costPerUnit_eq]
    split <;> rfl

theorem foldl_totalCost (cat : List Ingredient) (items : List RecipeItem) (acc : Totals) :
    (items.foldl (accumulate cat) acc).totalCost =
      acc.totalCost + Num.sum (specCostTerms items cat) := by
  induction items generalizing acc with
  | nil => simp [specCostTerms, Num.sum, Num.add_fin_zero]
  | cons item rest ih =>
    rw [List.foldl_cons, ih, accumulate_totalCost, specCostTerms_cons]
    cases h : cat.find? (fun i => i.id == item.id) with
    | none => rfl
    | some ing => simp only [Num.sum, List.foldr_cons, Num.add_assoc_num]

theorem dilution_cases (t : Option String) :
    dilution t = 20 ∨ dilution t = 30 ∨ dilution t = 0 := by
  unfold dilution
  split
  · exact Or.inl rfl
  · split
    · exact Or.inr (Or.inl rfl)
    · exact Or.inr (Or.inr rfl)

theorem dilution_stir : dilution (some "攪拌") = 20 := by decide

/-- The suggested price as a function of the total cost. -/
theorem suggestedPrice_eq (recipe : RecipeFields) (cat : List Ingredient) :
    (calculateRecipeStats recipe cat).suggestedPrice =
      match (calculateRecipeStats recipe cat).totalCost with
      | Num.fin c => if 0 < c then Num.fin ((⌈c / (1 / 4) / 10⌉ : ℤ) * 10) else Num.fin 0
      | Num.nan => Num.fin 0 := by
  simp only [calculateRecipeStats]
  cases h : (recipeTotals recipe.ingredients cat).totalCost with
  | nan => simp
  | fin c =>
    by_cases hc : 0 < c
    · simp [hc, TARGET_COST_RATE]
    · simp [hc]

theorem ceil_tenths_pos {c : ℚ} (hc : 0 < c) : 0 < (⌈c / (1 / 4) / 10⌉ : ℤ) := by
  rw [Int.ceil_pos]; positivity

theorem ceil_tenths_toNat {c : ℚ} (hc : 0 < c) :
    ((⌈c / (1 / 4) / 10⌉ : ℤ).toNat : ℚ) = ((⌈c / (1 / 4) / 10⌉ : ℤ) : ℚ) := by
  have h : (((⌈c / (1 / 4) / 10⌉ : ℤ).toNat : ℤ) : ℚ) = ((⌈c / (1 / 4) / 10⌉ : ℤ) : ℚ) := by
    rw [Int.toNat_of_nonneg (ceil_tenths_pos hc).le]
  rw [← h]; push_cast; rfl

/-- The accumulators of the stirred example. -/
theorem exampleStirred_totals :
    recipeTotals exampleStirred.ingredients [exampleGin] = ⟨36, 45, 18⟩ := by
  simp [recipeTotals, exampleStirred, exampleGin, accumulate, countsAsLiquid, costPerUnit,
    volumeOrOne, Val.toNumber, Val.parseFloat]
  norm_num

theorem exampleStirred_totalCost :
    (calculateRecipeStats exampleStirred [exampleGin]).totalCost = Num.fin 36 := by
  simp [calculateRecipeStats, exampleStirred_totals]

/-! ## Claims on `calculateRecipeStats` -/

/-- Claim C1. With a catalog of one ingredient of price 600, volume 750, unit ml, abv 40
and a category other than `other`, the recipe of 45 of it, stirred (`攪拌`), has
`finalVol = 65`, `finalAbv = 18 / 65 * 100`, `totalCost = 36` and `suggestedPrice = 150`. -/
theorem stats_stirred_example (ing : Ingredient) (recipe : RecipeFields)
    (hp : ing.price = 600) (hv : ing.volume = some 750) (hu : ing.unit = some "ml")
    (ha : ing.abv = .num 40) (ht : ing.type ≠ some "other")
    (hi : recipe.ingredients = some [⟨ing.id, .num 45⟩])
    (htech : recipe.technique = some "攪拌") :
    (calculateRecipeStats recipe [ing]).finalVol = 65 ∧
    (calculateRecipeStats recipe [ing]).finalAbv = Num.fin (18 / 65 * 100) ∧
    (calculateRecipeStats recipe [ing]).totalCost = 36 ∧
    (calculateRecipeStats recipe [ing]).suggestedPrice = 150 := by
  have hd : dilution recipe.technique = 20 := by rw [htech]; exact dilution_stir
  have hl : countsAsLiquid ing = true := by
    simp [countsAsLiquid, hu, ht]
  have hc : costPerUnit ing = Num.fin (600 / 750) := by
    simp [costPerUnit, volumeOrOne, hp, hv]
  have htot : recipeTotals recipe.ingredients [ing] = ⟨36, 45, 18⟩ := by
    simp [recipeTotals, hi, accumulate, hl, hc, ha, Val.toNumber, Val.parseFloat]
    norm_num
  have hceil : (⌈((36 : ℚ) * 4 / 10)⌉ : ℤ) = 15 := by
    rw [Int.ceil_eq_iff]; norm_num
  simp only [calculateRecipeStats, htot, hd]
  refine ⟨by simp; norm_num, by simp; norm_num, trivial, ?_⟩
  simp [TARGET_COST_RATE, hceil]
  norm_num

/-- Witness of claim C1: the stirred example. -/
theorem stats_stirred_example_witness :
    (calculateRecipeStats exampleStirred [exampleGin]).finalVol = 65 ∧
    (calculateRecipeStats exampleStirred [exampleGin]).finalAbv = Num.fin (18 / 65 * 100) ∧
    (calculateRecipeStats exampleStirred [exampleGin]).totalCost = 36 ∧
    (calculateRecipeStats exampleStirred [exampleGin]).suggestedPrice = 150 :=
  stats_stirred_example exampleGin exampleStirred rfl rfl rfl rfl (by decide) rfl rfl

/-- Claim C2. The suggested price is a non-negative multiple of 10, and it is at least
`totalCost / 0.25` whenever the total cost is positive. -/
theorem suggestedPrice_multiple_of_ten (recipe : RecipeFields) (cat : List Ingredient) :
    ∃ k : ℕ, (calculateRecipeStats recipe cat).suggestedPrice = Num.fin (10 * (k : ℚ)) ∧
      ∀ c : ℚ, (calculateRecipeStats recipe cat).totalCost = Num.fin c → 0 < c →
        c / (1 / 4) ≤ 10 * (k : ℚ) := by
  rw [suggestedPrice_eq]
  cases h : (calculateRecipeStats recipe cat).totalCost with
  | nan => exact ⟨0, by simp, by intro c hc; cases hc⟩
  | fin c =>
    by_cases hc : 0 < c
    · refine ⟨(⌈c / (1 / 4) / 10⌉ : ℤ).toNat, ?_, ?_⟩
      · simp only [hc, if_true, ceil_tenths_toNat hc]
        congr 1; ring
      · intro c' hc' _
        cases hc'
        have hle := Int.le_ceil (c / (1 / 4) / 10)
        rw [ceil_tenths_toNat hc]
        linarith
    · refine ⟨0, by simp [hc], ?_⟩
      intro c' hc' hpos
      cases hc'
      exact absurd hpos hc

/-- Witness of claim C2: the stirred example, whose total cost is positive. -/
theorem suggestedPrice_multiple_of_ten_witness :
    ∃ k : ℕ, (calculateRecipeStats exampleStirred [exampleGin]).suggestedPrice =
        Num.fin (10 * (k : ℚ)) ∧
      ∀ c : ℚ, (calculateRecipeStats exampleStirred [exampleGin]).totalCost = Num.fin c →
        0 < c → c / (1 / 4) ≤ 10 * (k : ℚ) :=
  suggestedPrice_multiple_of_ten exampleStirred [exampleGin]

/-- Claim C3. When the total cost `c` is positive, the suggested price is the least
positive multiple of 10 with `c / price ≤ 0.25`, and `price - 10 < c / 0.25`. -/
theorem suggestedPrice_least (recipe : RecipeFields) (cat : List Ingredient) (c : ℚ)
    (htc : (calculateRecipeStats recipe cat).totalCost = Num.fin c) (hc : 0 < c) :
    ∃ k : ℕ, 0 < k ∧
      (calculateRecipeStats recipe cat).suggestedPrice = Num.fin (10 * (k : ℚ)) ∧
      c / (10 * (k : ℚ)) ≤ 1 / 4 ∧
      10 * (k : ℚ) - 10 < c / (1 / 4) ∧
      ∀ m : ℕ, 0 < m → c / (10 * (m : ℚ)) ≤ 1 / 4 → 10 * (k : ℚ) ≤ 10 * (m : ℚ) := by
  have h0 := ceil_tenths_pos hc
  have hk := ceil_tenths_toNat hc
  have hle := Int.le_ceil (c / (1 / 4) / 10)
  have hlt := Int.ceil_lt_add_one (c / (1 / 4) / 10)
  have hkpos : (0 : ℚ) < ((⌈c / (1 / 4) / 10⌉ : ℤ) : ℚ) := by exact_mod_cast h0
  refine ⟨(⌈c / (1 / 4) / 10⌉ : ℤ).toNat, ?_, ?_, ?_, ?_, ?_⟩
  · omega
  · rw [suggestedPrice_eq, htc]
    simp only [hc, if_true, hk]
    congr 1; ring
  · rw [hk, div_le_iff₀ (by positivity)]
    linarith
  · rw [hk]; linarith
  · intro m hm hmc
    rw [hk]
    have hmq : (0 : ℚ) < (m : ℚ) := by exact_mod_cast hm
    rw [div_le_iff₀ (by positivity)] at hmc
    have h1 : c / (1 / 4) / 10 ≤ ((m : ℤ) : ℚ) := by
      push_cast; linarith
    have h2 : (⌈c / (1 / 4) / 10⌉ : ℤ) ≤ (m : ℤ) := Int.ceil_le.mpr h1
    have h3 : ((⌈c / (1 / 4) / 10⌉ : ℤ) : ℚ) ≤ ((m : ℤ) : ℚ) := by exact_mod_cast h2
    push_cast at h3
    linarith

/-- Witness of claim C3: the stirred example, of total cost 36. -/
theorem suggestedPrice_least_witness :
    ∃ k : ℕ, 0 < k ∧
      (calculateRecipeStats exampleStirred [exampleGin]).suggestedPrice =
        Num.fin (10 * (k : ℚ)) ∧
      (36 : ℚ) / (10 * (k : ℚ)) ≤ 1 / 4 ∧
      10 * (k : ℚ) - 10 < (36 : ℚ) / (1 / 4) ∧
      ∀ m : ℕ, 0 < m → (36 : ℚ) / (10 * (m : ℚ)) ≤ 1 / 4 → 10 * (k : ℚ) ≤ 10 * (m : ℚ) :=
  suggestedPrice_least exampleStirred [exampleGin] 36 exampleStirred_totalCost (by norm_num)

/-- Claim C4. A recipe whose ingredient list is absent, empty or made of items that
resolve to no ingredient has `totalCost = 0`, `finalAbv = 0` and `suggestedPrice = 0`,
whatever its technique and custom price; and inserting an item that resolves to no
ingredient anywhere in a recipe changes no field of the result. -/
theorem stats_dangling :
    (∀ (recipe : RecipeFields) (cat : List Ingredient),
      (∀ items, recipe.ingredients = some items →
        ∀ item ∈ items, ∀ i ∈ cat, i.id ≠ item.id) →
      (calculateRecipeStats recipe cat).totalCost = 0 ∧
      (calculateRecipeStats recipe cat).finalAbv = 0 ∧
      (calculateRecipeStats recipe cat).suggestedPrice = 0) ∧
    (∀ (recipe : RecipeFields) (cat : List Ingredient) (pre post : List RecipeItem)
      (item : RecipeItem),
      recipe.ingredients = some (pre ++ post) → (∀ i ∈ cat, i.id ≠ item.id) →
      calculateRecipeStats { recipe with ingredients := some (pre ++ item :: post) } cat =
        calculateRecipeStats recipe cat) := by
  constructor
  · intro recipe cat h
    have ht : recipeTotals recipe.ingredients cat = ⟨0, 0, 0⟩ := by
      unfold recipeTotals
      cases hi : recipe.ingredients with
      | none => rfl
      | some l => exact foldl_all_dangling cat l (h l hi) _
    simp only [calculateRecipeStats, ht]
    rcases dilution_cases recipe.technique with hd | hd | hd <;> simp [hd]
  · intro recipe cat pre post item hi hd
    simp only [calculateRecipeStats, recipeTotals, hi,
      foldl_dangling cat pre post item (find?_none_of_ids hd)]

/-- Witness of claim C4: the recipe with no list, and the stirred example with a dangling
item put in front. -/
theorem stats_dangling_witness :
    ((calculateRecipeStats emptyFields [exampleGin]).totalCost = 0 ∧
      (calculateRecipeStats emptyFields [exampleGin]).finalAbv = 0 ∧
      (calculateRecipeStats emptyFields [exampleGin]).suggestedPrice = 0) ∧
    calculateRecipeStats
        { exampleStirred with ingredients := some ([] ++ danglingItem :: [⟨"gin", .num 45⟩]) }
        [exampleGin] =
      calculateRecipeStats exampleStirred [exampleGin] :=
  ⟨stats_dangling.1 emptyFields [exampleGin] (by intro items h; cases h),
    stats_dangling.2 exampleStirred [exampleGin] [] [⟨"gin", .num 45⟩] danglingItem rfl
      (by intro i hi; simp [exampleGin] at hi; subst hi; decide)⟩

/-- Claim C5. The total cost is the sum, over the items that resolve to an ingredient, of
`(price / v) * amount`, where `v` is the volume when it is non-zero and `1` when it is
zero or absent; the divisor of the cost per unit is never zero. -/
theorem totalCost_eq_sum (recipe : RecipeFields) (cat : List Ingredient) :
    (calculateRecipeStats recipe cat).totalCost =
        Num.sum (specCostTerms (recipe.ingredients.getD []) cat) ∧
      ∀ ing : Ingredient, volumeOrOne ing ≠ 0 ∧ volumeOrOne ing = specVolume ing ∧
        costPerUnit ing = Num.fin (ing.price / specVolume ing) := by
  constructor
  · simp only [calculateRecipeStats, recipeTotals]
    cases h : recipe.ingredients with
    | none => simp [specCostTerms, Num.sum]
    | some l =>
      simp only [Option.getD_some]
      rw [foldl_totalCost]
      cases Num.sum (specCostTerms l cat) <;> simp
  · intro ing
    exact ⟨volumeOrOne_ne_zero ing, (specVolume_eq ing).symm,
      by rw [specVolume_eq, costPerUnit_eq]⟩

/-! ## Lemmas on the state operations -/

theorem usedIn_eq_filter (id : String) (rs : List Recipe)
    (H : ∀ r ∈ rs, r.ingredients ≠ none) :
    usedIn id rs =
      .ok (rs.filter (fun r => (r.ingredients.getD []).any (fun i => i.id == id))) := by
  induction rs with
  | nil => rfl
  | cons r rest ih =>
    have hr := H r (List.mem_cons_self _ _)
    have ih1 := ih (fun x hx => H x (List.mem_cons_of_mem _ hx))
    cases hri : r.ingredients with
    | none => exact absurd hri hr
    | some items =>
      simp only [usedIn, usesIngredient, hri, ih1, List.filter_cons, Option.getD_some]

theorem references_iff (r : Recipe) (id : String) (h : r.ingredients ≠ none) :
    r.references id ↔ (r.ingredients.getD []).any (fun i => i.id == id) = true := by
  unfold Recipe.references
  cases hri : r.ingredients with
  | none => exact absurd hri h
  | some items => simp

theorem mem_filter_ne (l : List Ingredient) (id : String) (x : Ingredient) :
    x ∈ l.filter (fun i => i.id != id) ↔ x ∈ l ∧ x.id ≠ id := by
  simp [List.mem_filter]

theorem Val.jsonClone_of_ne {v : Val} (h : v ≠ .num .nan) : v.jsonClone = v := by
  cases v with
  | num x => cases x with
    | nan => exact absurd rfl h
    | fin q => rfl
  | _ => rfl

theorem map_jsonClone_of_ne (items : List RecipeItem)
    (h : ∀ item ∈ items, item.amount ≠ .num .nan) :
    items.map RecipeItem.jsonClone = items := by
  induction items with
  | nil => rfl
  | cons item rest ih =>
    rw [List.map_cons, ih (fun x hx => h x (List.mem_cons_of_mem _ hx))]
    congr 1
    cases item with
    | mk iid amount =>
      simp only [RecipeItem.jsonClone]
      rw [Val.jsonClone_of_ne (h ⟨iid, amount⟩ (List.mem_cons_self _ _))]

theorem RecipeFields.jsonClone_of_nanFree {f : RecipeFields} (h : f.nanFree) :
    f.jsonClone = f := by
  obtain ⟨hc, hi⟩ := h
  cases f with
  | mk id nameZh nameEn type baseSpirit technique glass tags method flavorDescription image
      allergens customPrice ingredients =>
    simp only [RecipeFields.jsonClone, RecipeFields.mk.injEq, true_and]
    refine ⟨Val.jsonClone_of_ne hc, ?_⟩
    cases ingredients with
    | none => rfl
    | some items =>
      simp only [Option.map_some', Option.some.injEq]
      exact map_jsonClone_of_ne items (hi items rfl)

theorem keepIngredient_iff (prev : List Ingredient) (x : Ingredient) :
    keepIngredient prev x = true ↔ ∀ old ∈ prev, ¬ conflictIngredient old x := by
  simp only [keepIngredient, conflictIngredient, Bool.and_eq_true, Bool.not_eq_true',
    List.any_eq_false, Bool.or_eq_true, beq_iff_eq, Bool.and_eq_true, not_or]
  constructor
  · rintro ⟨h1, h2⟩ old hold
    exact ⟨h1 old hold, (h2 old hold).1, (h2 old hold).2⟩
  · intro h
    exact ⟨fun old hold => (h old hold).1, fun old hold => (h old hold).2⟩

theorem keepRecipe_iff (prev : List Recipe) (x : Recipe) :
    keepRecipe prev x = true ↔ ∀ old ∈ prev, ¬ conflictRecipe old x := by
  simp only [keepRecipe, conflictRecipe, Bool.and_eq_true, Bool.not_eq_true',
    List.any_eq_false, beq_iff_eq, not_or]
  constructor
  · rintro ⟨h1, h2⟩ old hold
    exact ⟨h1 old hold, h2 old hold⟩
  · intro h
    exact ⟨fun old hold => (h old hold).1, fun old hold => (h old hold).2⟩

theorem exampleState_lists : ∀ r ∈ exampleState.recipes, r.ingredients ≠ none := by
  intro r hr
  simp only [exampleState, List.mem_singleton] at hr
  subst hr
  simp [stirredRecipe, Recipe.ingredients, Recipe.fields, exampleStirred]

/-! ## Claims on `requestDelete` and `saveItem` -/

/-- Where every recipe carries an ingredient list, `requestDelete` does what claim C6
requires: when some recipe lists the id, it opens an alert with no callback and neither
the request nor the button of the alert changes the two collections; when no recipe
lists the id, it opens a confirmation, and confirming removes exactly the ingredients
with that id, keeps the others in order and leaves the recipes unchanged. -/
theorem requestDelete_guard (st : AppState) (id : String)
    (H : ∀ r ∈ st.recipes, r.ingredients ≠ none) :
    ((∃ r ∈ st.recipes, r.references id) →
      ∃ st1, requestDelete st id .ingredient = .ok st1 ∧
        st1.dialog.type = .alert ∧ st1.dialog.onConfirm = none ∧
        st1.ingredients = st.ingredients ∧ st1.recipes = st.recipes ∧
        (dialogConfirm st1).ingredients = st.ingredients ∧
        (dialogConfirm st1).recipes = st.recipes) ∧
    ((¬ ∃ r ∈ st.recipes, r.references id) →
      ∃ st1, requestDelete st id .ingredient = .ok st1 ∧
        st1.dialog.type = .confirm ∧
        st1.ingredients = st.ingredients ∧ st1.recipes = st.recipes ∧
        (dialogConfirm st1).ingredients = st.ingredients.filter (fun i => i.id != id) ∧
        (∀ x, x ∈ (dialogConfirm st1).ingredients ↔ x ∈ st.ingredients ∧ x.id ≠ id) ∧
        (dialogConfirm st1).ingredients.Sublist st.ingredients ∧
        (dialogConfirm st1).recipes = st.recipes) := by
  have hu := usedIn_eq_filter id st.recipes H
  have hlen : (∃ r ∈ st.recipes, r.references id) ↔
      (st.recipes.filter
        (fun r => (r.ingredients.getD []).any (fun i => i.id == id))).length > 0 := by
    rw [gt_iff_lt, List.length_pos_iff_exists_mem]
    constructor
    · rintro ⟨r, hr, href⟩
      exact ⟨r, List.mem_filter.mpr ⟨hr, (references_iff r id (H r hr)).mp href⟩⟩
    · rintro ⟨r, hr⟩
      have h := List.mem_filter.mp hr
      exact ⟨r, h.1, (references_iff r id (H r h.1)).mpr h.2⟩
  constructor
  · intro href
    have hpos := hlen.mp href
    have hreq : ∃ t m, requestDelete st id .ingredient = .ok (showAlert st t m) :=
      ⟨_, _, by simp only [requestDelete, hu, if_pos hpos]; rfl⟩
    obtain ⟨t, m, hreq⟩ := hreq
    exact ⟨showAlert st t m, hreq, rfl, rfl, rfl, rfl, rfl, rfl⟩
  · intro href
    have hpos := mt hlen.mpr href
    have hreq : ∃ t m, requestDelete st id .ingredient =
        .ok (showConfirm st t m (.deleteIngredient id)) :=
      ⟨_, _, by simp only [requestDelete, hu, if_neg hpos]; rfl⟩
    obtain ⟨t, m, hreq⟩ := hreq
    have hres : (dialogConfirm (showConfirm st t m (.deleteIngredient id))).ingredients =
        st.ingredients.filter (fun i => i.id != id) := rfl
    refine ⟨showConfirm st t m (.deleteIngredient id), hreq, rfl, rfl, rfl, hres, ?_, ?_, rfl⟩
    · intro x
      rw [hres]
      exact mem_filter_ne st.ingredients id x
    · rw [hres]
      exact List.filter_sublist _

/-- The state whose only recipe uses the gin, and the ids `gin` (listed) and `lime`
(not listed). -/
theorem requestDelete_guard_witness :
    (∀ r ∈ exampleState.recipes, r.ingredients ≠ none) ∧
    (∃ st1, requestDelete exampleState "gin" .ingredient = .ok st1 ∧
      st1.dialog.type = .alert ∧ st1.ingredients = [exampleGin]) ∧
    (∃ st1, requestDelete exampleState "lime" .ingredient = .ok st1 ∧
      st1.dialog.type = .confirm ∧ (dialogConfirm st1).ingredients = [exampleGin]) := by
  have h := requestDelete_guard exampleState "gin" exampleState_lists
  have h2 := requestDelete_guard exampleState "lime" exampleState_lists
  refine ⟨exampleState_lists, ?_, ?_⟩
  · obtain ⟨st1, h1, h3, _, h4, _⟩ := h.1 ⟨stirredRecipe, by simp [exampleState],
      [⟨"gin", .num 45⟩], rfl, ⟨"gin", .num 45⟩, by simp, rfl⟩
    exact ⟨st1, h1, h3, h4⟩
  · have hno : ¬ ∃ r ∈ exampleState.recipes, r.references "lime" := by
      rintro ⟨r, hr, items, hi, i, him, hid⟩
      simp only [exampleState, List.mem_singleton] at hr
      subst hr
      simp only [stirredRecipe, Recipe.ingredients, Recipe.fields, exampleStirred,
        Option.some.injEq] at hi
      subst hi
      simp only [List.mem_singleton] at him
      subst him
      exact absurd hid (by decide)
    obtain ⟨st1, h1, h3, _, _, h5, _⟩ := h2.2 hno
    exact ⟨st1, h1, h3, by rw [h5]; rfl⟩

/-- Claim C6, at the failing input: in the state whose only recipe has no ingredient
list, no recipe lists `gin`, yet the request throws a `TypeError` and opens no
confirmation, so the ingredient cannot be deleted. `calculateRecipeStats` reads the same
recipe behind its guard and returns a total cost of `0`. -/
theorem requestDelete_listless_throws :
    (¬ ∃ r ∈ listlessState.recipes, r.references "gin") ∧
    requestDelete listlessState "gin" .ingredient = .error .typeError ∧
    (¬ ∃ st1, requestDelete listlessState "gin" .ingredient = .ok st1) ∧
    (calculateRecipeStats listlessRecipe.fields listlessState.ingredients).totalCost = 0 := by
  have h : requestDelete listlessState "gin" .ingredient = .error .typeError := rfl
  refine ⟨?_, h, ?_, rfl⟩
  · rintro ⟨r, hr, items, hi, _⟩
    simp only [listlessState, List.mem_singleton] at hr
    subst hr
    simp [listlessRecipe, Recipe.ingredients, Recipe.fields, emptyFields] at hi
  · rintro ⟨st1, hst⟩
    rw [h] at hst
    cases hst

/-- Claim C7, amended. When `E` is the first record of the collection with the id of the
saved recipe (the record `find` returns, the only one when ids are distinct), `saveItem`
stores at the position of `E` a record whose history is one new entry `{date, snapshot}`
followed by the history of `E`, where `snapshot` has no history and its fields are the
JSON copy of the fields of `E`, equal to them when they hold no `NaN`. -/
theorem saveItem_history (st : AppState) (r E : Recipe) (now : String)
    (hname : nonEmptyText r.nameZh = true)
    (hE : st.recipes.find? (fun x => x.id == r.id) = some E) :
    ∃ stored snapshot : Recipe,
      stored.history = some (⟨now, snapshot⟩ :: E.history.getD []) ∧
      snapshot.history = none ∧
      snapshot.fields = E.fields.jsonClone ∧
      (E.fields.nanFree → snapshot.fields = E.fields) ∧
      stored.fields =
        { r.fields with
          customPrice := .num (.fin (parseFloatOrZero r.fields.customPrice)) } ∧
      (∃ i : ℕ, st.recipes[i]? = some E) ∧
      (∀ i : ℕ, st.recipes[i]? = some E →
        (saveItem st (.recipe r) now).recipes[i]? = some stored) ∧
      (saveItem st (.recipe r) now).recipes.length = st.recipes.length := by
  have hid : E.id = r.id := by
    have := List.find?_some hE
    simpa using this
  have hmem : E ∈ st.recipes := List.mem_of_find?_eq_some hE
  have hsave : (saveItem st (.recipe r) now).recipes =
      st.recipes.map (fun x => if x.id == r.id then
        Recipe.mk { r.fields with
            customPrice := .num (.fin (parseFloatOrZero r.fields.customPrice)) }
          (some (⟨now, snapshotOf E⟩ :: E.history.getD []))
        else x) := by
    simp only [saveItem, hname, Bool.not_true, Bool.false_eq_true, if_false, saveRecipe]
    have hid2 : (Recipe.mk { r.fields with
        customPrice := .num (.fin (parseFloatOrZero r.fields.customPrice)) }
        r.history).id = r.id := rfl
    rw [hid2, hE]
    rfl
  refine ⟨Recipe.mk { r.fields with
      customPrice := .num (.fin (parseFloatOrZero r.fields.customPrice)) }
    (some (⟨now, snapshotOf E⟩ :: E.history.getD [])), snapshotOf E, rfl, rfl, rfl, ?_, rfl,
    ?_, ?_, ?_⟩
  · intro h
    exact RecipeFields.jsonClone_of_nanFree h
  · obtain ⟨i, hi, hget⟩ := List.getElem_of_mem hmem
    exact ⟨i, by rw [List.getElem?_eq_getElem hi, hget]⟩
  · intro i hi
    rw [hsave, List.getElem?_map, hi]
    simp [hid]
  · rw [hsave, List.length_map]

/-- Witness of claim C7: the stirred recipe saved again after an edit. -/
theorem saveItem_history_witness :
    ∃ stored snapshot : Recipe,
      stored.history =
        some (⟨"2024-01-01T00:00:00.000Z", snapshot⟩ :: stirredRecipe.history.getD []) ∧
      snapshot.history = none ∧
      snapshot.fields = stirredRecipe.fields.jsonClone ∧
      (stirredRecipe.fields.nanFree → snapshot.fields = stirredRecipe.fields) ∧
      stored.fields =
        { editedRecipe.fields with
          customPrice := .num (.fin (parseFloatOrZero editedRecipe.fields.customPrice)) } ∧
      (∃ i : ℕ, exampleState.recipes[i]? = some stirredRecipe) ∧
      (∀ i : ℕ, exampleState.recipes[i]? = some stirredRecipe →
        (saveItem exampleState (.recipe editedRecipe)
          "2024-01-01T00:00:00.000Z").recipes[i]? = some stored) ∧
      (saveItem exampleState (.recipe editedRecipe)
        "2024-01-01T00:00:00.000Z").recipes.length = exampleState.recipes.length :=
  saveItem_history exampleState editedRecipe stirredRecipe "2024-01-01T00:00:00.000Z" rfl rfl

/-- Counterexample to claim C7 as stated: two records share the id `r1` and `E` is the
second. The record stored at the position of `E` has a history of one entry, the snapshot
of the first record; the entry that the history of `E` held is gone and the snapshot is
no copy of `E`. -/
theorem saveItem_same_id_second :
    sameIdState.recipes[1]? = some sameIdRecipe ∧
    sameIdRecipe.id = editedRecipe.id ∧
    ∃ stored : Recipe,
      (saveItem sameIdState (.recipe editedRecipe) "now").recipes[1]? = some stored ∧
      stored.history = some [⟨"now", snapshotOf stirredRecipe⟩] ∧
      (snapshotOf stirredRecipe).nameZh = some "馬丁尼" ∧
      sameIdRecipe.nameZh = some "琴費士" ∧
      sameIdRecipe.history.getD [] = [⟨"2023-06-01T00:00:00.000Z", .mk emptyFields none⟩] ∧
      ∀ (date : String) (snapshot : Recipe),
        stored.history ≠ some (⟨date, snapshot⟩ :: sameIdRecipe.history.getD []) := by
  refine ⟨rfl, rfl,
    Recipe.mk { editedRecipe.fields with
        customPrice := .num (.fin (parseFloatOrZero editedRecipe.fields.customPrice)) }
      (some [⟨"now", snapshotOf stirredRecipe⟩]), rfl, rfl, rfl, rfl, rfl, ?_⟩
  intro date snapshot h
  have hl := congrArg (fun o => (o.getD []).length) h
  simp [sameIdRecipe, Recipe.history] at hl

/-! ## Claims on `handleImport` -/

/-- The merge written with the test of the code: each collection becomes the current
collection followed by the incoming records, in their order, that pass the test against
every current record. -/
theorem handleImport_merge_eq (st : AppState) (data : ImportData) :
    (handleImport st (some data) .merge).ingredients =
      st.ingredients ++ (data.ingredients.getD []).filter
        (fun x => decide (∀ old ∈ st.ingredients, ¬ conflictIngredient old x)) ∧
    (handleImport st (some data) .merge).recipes =
      st.recipes ++ (data.recipes.getD []).filter
        (fun x => decide (∀ old ∈ st.recipes, ¬ conflictRecipe old x)) := by
  constructor
  · show mergeIngredients st.ingredients (data.ingredients.getD []) = _
    unfold mergeIngredients
    congr 1
    apply List.filter_congr
    intro x _
    rw [Bool.eq_iff_iff, keepIngredient_iff]
    simp
  · show mergeRecipes st.recipes (data.recipes.getD []) = _
    unfold mergeRecipes
    congr 1
    apply List.filter_congr
    intro x _
    rw [Bool.eq_iff_iff, keepRecipe_iff]
    simp

/-- Two ingredients with distinct ids and Chinese names and an empty English name each:
neither side has an English name, and the merge appends the incoming one; a comparison
of the normalized names alone would drop it. -/
theorem handleImport_merge_empty_nameEn :
    (handleImport vodkaState (some limeBackup) .merge).ingredients = [vodkaNoEn, limeNoEn] ∧
    vodkaState.ingredients ++ (limeBackup.ingredients.getD []).filter
      (fun x => decide (∀ old ∈ vodkaState.ingredients, ¬ claimedConflictIngredient old x)) =
      [vodkaNoEn] ∧
    (handleImport vodkaState (some limeBackup) .merge).ingredients ≠
      vodkaState.ingredients ++ (limeBackup.ingredients.getD []).filter
        (fun x => decide (∀ old ∈ vodkaState.ingredients,
          ¬ claimedConflictIngredient old x)) := by
  have h1 : (handleImport vodkaState (some limeBackup) .merge).ingredients =
      [vodkaNoEn, limeNoEn] := rfl
  have hc : claimedConflictIngredient vodkaNoEn limeNoEn := Or.inr (Or.inr rfl)
  have h2 : vodkaState.ingredients ++ (limeBackup.ingredients.getD []).filter
      (fun x => decide (∀ old ∈ vodkaState.ingredients, ¬ claimedConflictIngredient old x)) =
      [vodkaNoEn] := by
    simp [vodkaState, limeBackup, hc]
  refine ⟨h1, h2, ?_⟩
  rw [h1, h2]
  intro h
  have := congrArg List.length h
  simp at this

/-- Where no current English name is made of white space only, the test of the code is
the conflict of the specification. -/
theorem merge_spec_conflict (prev : List Ingredient) (x : Ingredient)
    (H : ∀ old ∈ prev, nonEmptyText old.nameEn = true → normalizeStr old.nameEn ≠ "") :
    (∀ old ∈ prev, ¬ conflictIngredient old x) ↔
      (∀ old ∈ prev, ¬ specConflictIngredient old x) := by
  have hx : nonEmptyText x.nameEn = false → normalizeStr x.nameEn = "" := by
    intro hen
    unfold nonEmptyText at hen
    unfold normalizeStr
    cases hn : x.nameEn with
    | none => rfl
    | some t =>
      rw [hn] at hen
      simp only [Bool.not_eq_false'] at hen
      simp [hen]
  constructor
  · intro h old hold hc
    apply h old hold
    rcases hc with hc | hc | ⟨h1, _, h3⟩
    · exact Or.inl hc
    · exact Or.inr (Or.inl hc)
    · exact Or.inr (Or.inr ⟨h1, h3⟩)
  · intro h old hold hc
    apply h old hold
    rcases hc with hc | hc | ⟨h1, h3⟩
    · exact Or.inl hc
    · exact Or.inr (Or.inl hc)
    · refine Or.inr (Or.inr ⟨h1, ?_, h3⟩)
      by_contra hne
      rw [Bool.not_eq_true] at hne
      exact H old hold h1 (h3.trans (hx hne))

/-- Where no current English name is made of white space only, the merge is the one of
the specification: each collection becomes the current collection followed by the
incoming records, in their order, that conflict with no current record; a conflict is an
equal id, a normalized-equal `nameZh` or, for ingredients, a normalized-equal `nameEn`
when both sides have one. -/
theorem handleImport_merge_spec (st : AppState) (data : ImportData)
    (H : ∀ old ∈ st.ingredients,
      nonEmptyText old.nameEn = true → normalizeStr old.nameEn ≠ "") :
    (handleImport st (some data) .merge).ingredients =
      st.ingredients ++ (data.ingredients.getD []).filter
        (fun x => decide (∀ old ∈ st.ingredients, ¬ specConflictIngredient old x)) ∧
    (handleImport st (some data) .merge).recipes =
      st.recipes ++ (data.recipes.getD []).filter
        (fun x => decide (∀ old ∈ st.recipes, ¬ conflictRecipe old x)) := by
  constructor
  · show mergeIngredients st.ingredients (data.ingredients.getD []) = _
    unfold mergeIngredients
    congr 1
    apply List.filter_congr
    intro x _
    rw [Bool.eq_iff_iff, keepIngredient_iff, merge_spec_conflict st.ingredients x H]
    simp
  · show mergeRecipes st.recipes (data.recipes.getD []) = _
    unfold mergeRecipes
    congr 1
    apply List.filter_congr
    intro x _
    rw [Bool.eq_iff_iff, keepRecipe_iff]
    simp

/-- Claim C8, at the failing input: the current gin has an English name made of one
space, and the file holds the gin under another id and a lime with no English name. The
gin of the file conflicts by its Chinese name; the lime conflicts with nothing, since it
has no English name, and the merge of the specification appends it. The code drops it
and returns the current collection alone. -/
theorem handleImport_merge_blank_existing :
    nonEmptyText ginBlankEn.nameEn = true ∧
    nonEmptyText limeNoEn.nameEn = false ∧
    ¬ specConflictIngredient ginBlankEn limeNoEn ∧
    blankEnState.ingredients ++ (exampleBackup.ingredients.getD []).filter
      (fun x => decide (∀ old ∈ blankEnState.ingredients, ¬ specConflictIngredient old x)) =
      [ginBlankEn, limeNoEn] ∧
    (handleImport blankEnState (some exampleBackup) .merge).ingredients = [ginBlankEn] ∧
    (handleImport blankEnState (some exampleBackup) .merge).ingredients ≠
      blankEnState.ingredients ++ (exampleBackup.ingredients.getD []).filter
        (fun x => decide (∀ old ∈ blankEnState.ingredients,
          ¬ specConflictIngredient old x)) := by
  have h1 : (handleImport blankEnState (some exampleBackup) .merge).ingredients =
      [ginBlankEn] := rfl
  have hc : ¬ specConflictIngredient ginBlankEn limeNoEn := by decide
  have hr : specConflictIngredient ginBlankEn ginRenamed := Or.inr (Or.inl (by decide))
  have h2 : blankEnState.ingredients ++ (exampleBackup.ingredients.getD []).filter
      (fun x => decide (∀ old ∈ blankEnState.ingredients, ¬ specConflictIngredient old x)) =
      [ginBlankEn, limeNoEn] := by
    simp [blankEnState, exampleBackup, hc, hr]
  refine ⟨rfl, rfl, hc, h2, h1, ?_⟩
  rw [h1, h2]
  intro h
  have := congrArg List.length h
  simp at this

/-- Claim C9. In merge mode an incoming ingredient or recipe whose normalized `nameZh`
is that of a current record is not among the appended records, and when its id differs
from every current id it is not in the resulting collection. -/
theorem handleImport_merge_skips_same_name (st : AppState) (data : ImportData) :
    (∀ x ∈ data.ingredients.getD [],
      (∃ old ∈ st.ingredients, normalizeStr old.nameZh = normalizeStr x.nameZh) →
      ∃ added : List Ingredient,
        (handleImport st (some data) .merge).ingredients = st.ingredients ++ added ∧
        added.Sublist (data.ingredients.getD []) ∧ x ∉ added ∧
        ((∀ old ∈ st.ingredients, old.id ≠ x.id) →
          x ∉ (handleImport st (some data) .merge).ingredients)) ∧
    (∀ x ∈ data.recipes.getD [],
      (∃ old ∈ st.recipes, normalizeStr old.nameZh = normalizeStr x.nameZh) →
      ∃ added : List Recipe,
        (handleImport st (some data) .merge).recipes = st.recipes ++ added ∧
        added.Sublist (data.recipes.getD []) ∧ x ∉ added ∧
        ((∀ old ∈ st.recipes, old.id ≠ x.id) →
          x ∉ (handleImport st (some data) .merge).recipes)) := by
  constructor
  · intro x _ hname
    have hk : keepIngredient st.ingredients x = false := by
      rw [← Bool.not_eq_true, keepIngredient_iff]
      obtain ⟨old, hold, hn⟩ := hname
      intro hall
      exact hall old hold (Or.inr (Or.inl hn))
    have hx : x ∉ (data.ingredients.getD []).filter (keepIngredient st.ingredients) := by
      intro hmem
      have := (List.mem_filter.mp hmem).2
      rw [hk] at this
      cases this
    refine ⟨(data.ingredients.getD []).filter (keepIngredient st.ingredients), rfl,
      List.filter_sublist _, hx, ?_⟩
    intro hid hmem
    have hmem2 : x ∈ st.ingredients ++
        (data.ingredients.getD []).filter (keepIngredient st.ingredients) := hmem
    rcases List.mem_append.mp hmem2 with h | h
    · exact hid x h rfl
    · exact hx h
  · intro x _ hname
    have hk : keepRecipe st.recipes x = false := by
      rw [← Bool.not_eq_true, keepRecipe_iff]
      obtain ⟨old, hold, hn⟩ := hname
      intro hall
      exact hall old hold (Or.inr hn)
    have hx : x ∉ (data.recipes.getD []).filter (keepRecipe st.recipes) := by
      intro hmem
      have := (List.mem_filter.mp hmem).2
      rw [hk] at this
      cases this
    refine ⟨(data.recipes.getD []).filter (keepRecipe st.recipes), rfl,
      List.filter_sublist _, hx, ?_⟩
    intro hid hmem
    have hmem2 : x ∈ st.recipes ++
        (data.recipes.getD []).filter (keepRecipe st.recipes) := hmem
    rcases List.mem_append.mp hmem2 with h | h
    · exact hid x h rfl
    · exact hx h

/-- Witness of claim C9: the gin imported under another id, its name written with
spaces, is not in the merged collection. -/
theorem handleImport_merge_skips_same_name_witness :
    ginRenamed ∈ exampleBackup.ingredients.getD [] ∧
    (∃ old ∈ exampleState.ingredients,
      normalizeStr old.nameZh = normalizeStr ginRenamed.nameZh) ∧
    (∀ old ∈ exampleState.ingredients, old.id ≠ ginRenamed.id) ∧
    ginRenamed ∉ (handleImport exampleState (some exampleBackup) .merge).ingredients := by
  have hmem : ginRenamed ∈ exampleBackup.ingredients.getD [] := by
    simp [exampleBackup]
  have hname : ∃ old ∈ exampleState.ingredients,
      normalizeStr old.nameZh = normalizeStr ginRenamed.nameZh :=
    ⟨exampleGin, by simp [exampleState], by decide⟩
  have hid : ∀ old ∈ exampleState.ingredients, old.id ≠ ginRenamed.id := by
    intro old hold
    simp only [exampleState, List.mem_singleton] at hold
    subst hold
    decide
  obtain ⟨added, _, _, _, h⟩ :=
    (handleImport_merge_skips_same_name exampleState exampleBackup).1 ginRenamed hmem hname
  exact ⟨hmem, hname, hid, h hid⟩

/-- Claim C10. In overwrite mode the ingredient collection becomes the field
`ingredients` of the parsed object and the recipe collection its field `recipes`, the
empty list standing for an absent field, whatever the current state holds. -/
theorem handleImport_overwrite (st : AppState) (data : ImportData) :
    (handleImport st (some data) .overwrite).ingredients = data.ingredients.getD [] ∧
    (handleImport st (some data) .overwrite).recipes = data.recipes.getD [] ∧
    (∀ l, data.ingredients = some l →
      (handleImport st (some data) .overwrite).ingredients = l) ∧
    (data.ingredients = none → (handleImport st (some data) .overwrite).ingredients = []) ∧
    (∀ l, data.recipes = some l → (handleImport st (some data) .overwrite).recipes = l) ∧
    (data.recipes = none → (handleImport st (some data) .overwrite).recipes = []) := by
  refine ⟨rfl, rfl, ?_, ?_, ?_, ?_⟩
  · intro l h
    show data.ingredients.getD [] = l
    rw [h]; rfl
  · intro h
    show data.ingredients.getD [] = []
    rw [h]; rfl
  · intro l h
    show data.recipes.getD [] = l
    rw [h]; rfl
  · intro h
    show data.recipes.getD [] = []
    rw [h]; rfl

/-- Witness of claim C10: a backup with an ingredient list and no recipe field, over a
state that holds a conflicting ingredient and a recipe. -/
theorem handleImport_overwrite_witness :
    (handleImport exampleState (some exampleBackup) .overwrite).ingredients =
      [ginRenamed, limeNoEn] ∧
    (handleImport exampleState (some exampleBackup) .overwrite).recipes = [] :=
  ⟨(handleImport_overwrite exampleState exampleBackup).2.2.1 _ rfl,
    (handleImport_overwrite exampleState exampleBackup).2.2.2.2.2 rfl⟩

/-! ## Lemmas on JSON copies, identifiers and saving -/

theorem ingredient_jsonClone_of_nanFree {i : Ingredient} (h : i.nanFree) : i.jsonClone = i := by
  cases i with
  | mk id nameZh nameEn type price volume unit abv =>
    simp only [Ingredient.jsonClone, Ingredient.mk.injEq, true_and]
    exact Val.jsonClone_of_ne h

mutual
theorem recipe_jsonClone_of_nanFree : ∀ r : Recipe, r.nanFree → r.jsonClone = r
  | .mk f h, hr => by
    simp only [Recipe.nanFree] at hr
    simp only [Recipe.jsonClone]
    rw [RecipeFields.jsonClone_of_nanFree hr.1, jsonCloneHistory_of_nanFree h hr.2]
theorem jsonCloneHistory_of_nanFree :
    ∀ h : Option (List (HistoryEntry Recipe)), historyNanFree h → jsonCloneHistory h = h
  | none, _ => rfl
  | some l, hl => by
    simp only [historyNanFree] at hl
    simp only [jsonCloneHistory]
    rw [jsonCloneEntries_of_nanFree l hl]
theorem jsonCloneEntries_of_nanFree :
    ∀ l : List (HistoryEntry Recipe), entriesNanFree l → jsonCloneEntries l = l
  | [], _ => rfl
  | e :: es, hl => by
    simp only [entriesNanFree] at hl
    simp only [jsonCloneEntries]
    rw [jsonCloneEntry_of_nanFree e hl.1, jsonCloneEntries_of_nanFree es hl.2]
theorem jsonCloneEntry_of_nanFree :
    ∀ e : HistoryEntry Recipe, entryNanFree e → jsonCloneEntry e = e
  | ⟨d, s⟩, he => by
    simp only [entryNanFree] at he
    simp only [jsonCloneEntry]
    rw [recipe_jsonClone_of_nanFree s he]
end

theorem map_eq_self_of {α : Type} (f : α → α) (l : List α) (h : ∀ x ∈ l, f x = x) :
    l.map f = l := by
  induction l with
  | nil => rfl
  | cons a rest ih =>
    rw [List.map_cons, h a (List.mem_cons_self _ _),
      ih (fun x hx => h x (List.mem_cons_of_mem _ hx))]

theorem keepIngredient_id {prev : List Ingredient} {x : Ingredient}
    (h : keepIngredient prev x = true) : ∀ old ∈ prev, old.id ≠ x.id := by
  intro old hold
  exact fun hid => (keepIngredient_iff prev x).mp h old hold (Or.inl hid)

theorem keepRecipe_id {prev : List Recipe} {x : Recipe}
    (h : keepRecipe prev x = true) : ∀ old ∈ prev, old.id ≠ x.id := by
  intro old hold
  exact fun hid => (keepRecipe_iff prev x).mp h old hold (Or.inl hid)

theorem nodup_ids_append_filter {α : Type} (id : α → String) (keep : α → Bool)
    (prev incoming : List α) (hk : ∀ x, keep x = true → ∀ old ∈ prev, id old ≠ id x)
    (hp : (prev.map id).Nodup) (hi : (incoming.map id).Nodup) :
    ((prev ++ incoming.filter keep).map id).Nodup := by
  rw [List.map_append, List.nodup_append]
  refine ⟨hp, hi.sublist ((List.filter_sublist _).map id), ?_⟩
  intro a ha hb
  obtain ⟨old, hold, rfl⟩ := List.mem_map.mp ha
  obtain ⟨x, hx, hxid⟩ := List.mem_map.mp hb
  exact hk x (List.mem_filter.mp hx).2 old hold hxid.symm

theorem map_replace_ids {α : Type} (id : α → String) (prev : List α) (new : α) :
    (prev.map (fun x => if id x == id new then new else x)).map id = prev.map id := by
  rw [List.map_map]
  apply List.map_congr_left
  intro x _
  simp only [Function.comp]
  split
  · next h => exact (beq_iff_eq.mp h).symm
  · rfl

theorem nodup_ids_append_new {α : Type} (id : α → String) (prev : List α) (new : α)
    (hnew : ∀ x ∈ prev, id x ≠ id new) (hp : (prev.map id).Nodup) :
    ((prev ++ [new]).map id).Nodup := by
  rw [List.map_append, List.nodup_append]
  refine ⟨hp, by simp, ?_⟩
  intro a ha hb
  obtain ⟨x, hx, rfl⟩ := List.mem_map.mp ha
  simp only [List.map_cons, List.map_nil, List.mem_singleton] at hb
  exact hnew x hx hb

theorem find?_id_none {α : Type} (id : α → String) (prev : List α) (key : String) :
    prev.find? (fun x => id x == key) = none ↔ ∀ x ∈ prev, id x ≠ key := by
  simp [List.find?_eq_none]

theorem find?_id_isSome {α : Type} (id : α → String) (prev : List α) (key : String)
    (h : ∃ x ∈ prev, id x = key) : ∃ y, prev.find? (fun x => id x == key) = some y := by
  cases hf : prev.find? (fun x => id x == key) with
  | some y => exact ⟨y, rfl⟩
  | none =>
    obtain ⟨x, hx, hid⟩ := h
    exact absurd hid ((find?_id_none id prev key).mp hf x hx)

theorem saveIngredient_present (prev : List Ingredient) (new : Ingredient)
    (h : ∃ x ∈ prev, x.id = new.id) :
    saveIngredient prev new = prev.map (fun i => if i.id == new.id then new else i) := by
  obtain ⟨y, hy⟩ := find?_id_isSome (fun i : Ingredient => i.id) prev new.id h
  simp only [saveIngredient, hy]

theorem saveIngredient_absent (prev : List Ingredient) (new : Ingredient)
    (h : ∀ x ∈ prev, x.id ≠ new.id) :
    saveIngredient prev new = prev ++ [new] := by
  have := (find?_id_none (fun i : Ingredient => i.id) prev new.id).mpr h
  simp only [saveIngredient, this]

theorem saveRecipe_present (prev : List Recipe) (new : Recipe) (now : String)
    (h : ∃ x ∈ prev, x.id = new.id) :
    ∃ stored : Recipe, stored.id = new.id ∧
      saveRecipe prev new now = prev.map (fun r => if r.id == new.id then stored else r) := by
  obtain ⟨y, hy⟩ := find?_id_isSome (fun r : Recipe => r.id) prev new.id h
  exact ⟨Recipe.mk new.fields (some (⟨now, snapshotOf y⟩ :: y.history.getD [])), rfl,
    by simp only [saveRecipe, hy]⟩

theorem saveRecipe_absent (prev : List Recipe) (new : Recipe) (now : String)
    (h : ∀ x ∈ prev, x.id ≠ new.id) :
    saveRecipe prev new now = prev ++ [new] := by
  have := (find?_id_none (fun r : Recipe => r.id) prev new.id).mpr h
  simp only [saveRecipe, this]

theorem saveItem_ingredients (st : AppState) (d : IngredientDraft) (now : String)
    (h : nonEmptyText d.nameZh = true) :
    (saveItem st (.ingredient d) now).ingredients =
      saveIngredient st.ingredients (storedIngredient d) ∧
    (saveItem st (.ingredient d) now).recipes = st.recipes := by
  simp [saveItem, h, storedIngredient]

theorem saveItem_recipes (st : AppState) (r : Recipe) (now : String)
    (h : nonEmptyText r.nameZh = true) :
    (saveItem st (.recipe r) now).recipes = saveRecipe st.recipes (storedRecipe r) now ∧
    (saveItem st (.recipe r) now).ingredients = st.ingredients := by
  simp [saveItem, h, storedRecipe]

theorem stats_totalCost_sum (recipe : RecipeFields) (cat : List Ingredient) :
    (calculateRecipeStats recipe cat).totalCost =
      Num.sum (specCostTerms (recipe.ingredients.getD []) cat) := by
  simp only [calculateRecipeStats, recipeTotals]
  cases h : recipe.ingredients with
  | none => simp [specCostTerms, Num.sum]
  | some l =>
    simp only [Option.getD_some]
    rw [foldl_totalCost]
    cases Num.sum (specCostTerms l cat) <;> simp

/-- An incoming ingredient with no English name, a new id and a new Chinese name is kept
when no current English name is made of white space only. -/
theorem keepIngredient_of_empty_nameEn (prev : List Ingredient) (x : Ingredient)
    (hen : nonEmptyText x.nameEn = false)
    (hid : ∀ old ∈ prev, old.id ≠ x.id)
    (hzh : ∀ old ∈ prev, normalizeStr old.nameZh ≠ normalizeStr x.nameZh)
    (hblank : ∀ old ∈ prev, nonEmptyText old.nameEn = true → normalizeStr old.nameEn ≠ "") :
    keepIngredient prev x = true := by
  rw [keepIngredient_iff]
  intro old hold hc
  have hx : normalizeStr x.nameEn = "" := by
    unfold nonEmptyText at hen
    unfold normalizeStr
    cases hn : x.nameEn with
    | none => rfl
    | some t =>
      rw [hn] at hen
      simp only [Bool.not_eq_false'] at hen
      simp [hen]
  rcases hc with h | h | ⟨h1, h2⟩
  · exact hid old hold h
  · exact hzh old hold h
  · exact hblank old hold h1 (h2.trans hx)

theorem includesChars_iff (needle hay : List Char) :
    includesChars needle hay = true ↔ needle <:+: hay := by
  induction hay with
  | nil =>
    simp only [includesChars, List.infix_nil, List.isEmpty_iff]
  | cons c cs ih =>
    simp only [includesChars, Bool.or_eq_true, ih, List.infix_cons_iff,
      List.isPrefixOf_iff_prefix]

theorem includes_iff (hay needle : String) :
    includes hay needle = true ↔ containsText hay needle :=
  includesChars_iff needle.data hay.data

theorem dilution_eq_spec (technique : Option String) :
    dilution technique = specDilution (techLower technique) := by
  unfold dilution specDilution
  simp only [Bool.or_eq_true, includes_iff]

theorem techLower_some (t : String) : techLower (some t) = toLowerCase t := by
  unfold techLower
  by_cases h : t.data.isEmpty = true
  · simp only [h, if_true]
    have : t.data = [] := List.isEmpty_iff.mp h
    unfold toLowerCase
    rw [this]; rfl
  · simp only [h, if_false]
    rfl

theorem countsAsLiquid_iff (ing : Ingredient) : countsAsLiquid ing = true ↔ isLiquid ing := by
  unfold countsAsLiquid isLiquid
  simp only [Bool.and_eq_true, bne_iff_ne, ne_eq, Bool.or_eq_true, beq_iff_eq, or_assoc]

theorem Num.mul_div_hundred (x y : Num) : x * (y / 100) = x * y / 100 := by
  cases x <;> cases y <;> simp
  ring

theorem specVolumeTerms_cons (cat : List Ingredient) (item : RecipeItem)
    (rest : List RecipeItem) :
    specVolumeTerms (item :: rest) cat =
      match cat.find? (fun i => i.id == item.id) with
      | some ing =>
        if isLiquid ing then item.amount.parseFloat :: specVolumeTerms rest cat
        else specVolumeTerms rest cat
      | none => specVolumeTerms rest cat := by
  unfold specVolumeTerms
  cases h : cat.find? (fun i => i.id == item.id) with
  | none => simp [List.filterMap_cons, h]
  | some ing => by_cases hl : isLiquid ing <;> simp [List.filterMap_cons, h, hl]

theorem specAlcoholTerms_cons (cat : List Ingredient) (item : RecipeItem)
    (rest : List RecipeItem) :
    specAlcoholTerms (item :: rest) cat =
      match cat.find? (fun i => i.id == item.id) with
      | some ing =>
        if isLiquid ing then
          (item.amount.parseFloat * ing.abv.toNumber / 100) :: specAlcoholTerms rest cat
        else specAlcoholTerms rest cat
      | none => specAlcoholTerms rest cat := by
  unfold specAlcoholTerms
  cases h : cat.find? (fun i => i.id == item.id) with
  | none => simp [List.filterMap_cons, h]
  | some ing => by_cases hl : isLiquid ing <;> simp [List.filterMap_cons, h, hl]

theorem foldl_volumes (cat : List Ingredient) (items : List RecipeItem) (acc : Totals) :
    (items.foldl (accumulate cat) acc).totalVol =
        acc.totalVol + Num.sum (specVolumeTerms items cat) ∧
    (items.foldl (accumulate cat) acc).totalAlcoholVol =
        acc.totalAlcoholVol + Num.sum (specAlcoholTerms items cat) := by
  induction items generalizing acc with
  | nil => simp [specVolumeTerms, specAlcoholTerms, Num.sum, Num.add_fin_zero]
  | cons item rest ih =>
    rw [List.foldl_cons, (ih _).1, (ih _).2, specVolumeTerms_cons, specAlcoholTerms_cons]
    unfold accumulate
    cases h : cat.find? (fun i => i.id == item.id) with
    | none => exact ⟨rfl, rfl⟩
    | some ing =>
      by_cases hl : isLiquid ing
      · have hc := (countsAsLiquid_iff ing).mpr hl
        simp only [hc, if_true, hl, Num.sum, List.foldr_cons, Num.add_assoc_num,
          Num.mul_div_hundred, and_self]
      · have hc : countsAsLiquid ing = false := by
          rw [← Bool.not_eq_true, countsAsLiquid_iff]; exact hl
        simp only [hc, Bool.false_eq_true, if_false, hl, and_self]

theorem recipeTotals_volumes (items : Option (List RecipeItem)) (cat : List Ingredient) :
    (recipeTotals items cat).totalVol = Num.sum (specVolumeTerms (items.getD []) cat) ∧
    (recipeTotals items cat).totalAlcoholVol =
      Num.sum (specAlcoholTerms (items.getD []) cat) := by
  cases items with
  | none => simp [recipeTotals, specVolumeTerms, specAlcoholTerms, Num.sum]
  | some l =>
    simp only [recipeTotals, Option.getD_some]
    obtain ⟨h1, h2⟩ := foldl_volumes cat l ⟨0, 0, 0⟩
    rw [h1, h2]
    constructor
    · cases Num.sum (specVolumeTerms l cat) <;> simp
    · cases Num.sum (specAlcoholTerms l cat) <;> simp

theorem specVolumeTerms_insert (cat : List Ingredient) (pre post : List RecipeItem)
    (item : RecipeItem) (ing : Ingredient)
    (hf : cat.find? (fun i => i.id == item.id) = some ing) (hl : ¬ isLiquid ing) :
    specVolumeTerms (pre ++ item :: post) cat = specVolumeTerms (pre ++ post) cat ∧
    specAlcoholTerms (pre ++ item :: post) cat = specAlcoholTerms (pre ++ post) cat := by
  unfold specVolumeTerms specAlcoholTerms
  simp [List.filterMap_append, List.filterMap_cons, hf, hl]

theorem specCostTerms_insert (cat : List Ingredient) (pre post : List RecipeItem)
    (item : RecipeItem) (ing : Ingredient)
    (hf : cat.find? (fun i => i.id == item.id) = some ing) :
    specCostTerms (pre ++ item :: post) cat =
      specCostTerms pre cat ++
        (Num.fin (ing.price / specVolume ing) * item.amount.toNumber) ::
          specCostTerms post cat := by
  unfold specCostTerms
  simp [List.filterMap_append, List.filterMap_cons, hf]

theorem stirredRecipe_nanFree : stirredRecipe.nanFree := by
  unfold stirredRecipe
  simp only [Recipe.nanFree, historyNanFree, entriesNanFree, and_true]
  unfold RecipeFields.nanFree
  refine ⟨?_, ?_⟩
  · intro h
    cases h
  · intro items hi item hmem
    simp only [exampleStirred, Option.some.injEq] at hi
    subst hi
    simp only [List.mem_singleton] at hmem
    subst hmem
    intro h
    cases h

/-! ## Claims on the backup round trip, identifiers and saving -/

/-- Claim C11. Importing in overwrite mode the backup exported from the collections `I`
and `R` gives back `I` and `R`, for collections that hold no `NaN` (a value no stored
field takes: JSON writes it as `null`). -/
theorem export_import_roundtrip (st : AppState) (I : List Ingredient) (R : List Recipe)
    (hI : ∀ i ∈ I, i.nanFree) (hR : ∀ r ∈ R, r.nanFree) :
    ∃ data, exportedBackup I R = some data ∧
      (handleImport st (some data) .overwrite).ingredients = I ∧
      (handleImport st (some data) .overwrite).recipes = R := by
  refine ⟨_, rfl, ?_, ?_⟩
  · show (some (I.map Ingredient.jsonClone)).getD [] = I
    exact map_eq_self_of _ _ (fun i hi => ingredient_jsonClone_of_nanFree (hI i hi))
  · show (some (R.map Recipe.jsonClone)).getD [] = R
    exact map_eq_self_of _ _ (fun r hr => recipe_jsonClone_of_nanFree r (hR r hr))

/-- Witness of claim C11: the collections of the example state, imported into another
state. -/
theorem export_import_roundtrip_witness :
    ∃ data, exportedBackup exampleState.ingredients exampleState.recipes = some data ∧
      (handleImport vodkaState (some data) .overwrite).ingredients = [exampleGin] ∧
      (handleImport vodkaState (some data) .overwrite).recipes = [stirredRecipe] :=
  export_import_roundtrip vodkaState exampleState.ingredients exampleState.recipes
    (by
      intro i hi
      simp only [exampleState, List.mem_singleton] at hi
      subst hi
      exact fun h => by cases h)
    (by
      intro r hr
      simp only [exampleState, List.mem_singleton] at hr
      subst hr
      exact stirredRecipe_nanFree)

/-- Claim C12. When the text of the file does not parse, `handleImport` opens the alert
`檔案格式不正確` and leaves both collections unchanged, in either mode. -/
theorem handleImport_parse_failure (st : AppState) (mode : ImportMode) :
    (handleImport st none mode).ingredients = st.ingredients ∧
    (handleImport st none mode).recipes = st.recipes ∧
    (handleImport st none mode).dialog = ⟨true, .alert, "錯誤", "檔案格式不正確", none⟩ := by
  cases mode <;> exact ⟨rfl, rfl, rfl⟩

/-- Claim C13, amended. When the ids of the current collection are pairwise distinct and
the ids of the incoming list are pairwise distinct, the ids of the merged collection are
pairwise distinct, for ingredients and for recipes. -/
theorem handleImport_merge_ids_nodup (st : AppState) (data : ImportData) :
    ((st.ingredients.map (fun i => i.id)).Nodup →
      ((data.ingredients.getD []).map (fun i => i.id)).Nodup →
      ((handleImport st (some data) .merge).ingredients.map (fun i => i.id)).Nodup) ∧
    ((st.recipes.map (fun r => r.id)).Nodup →
      ((data.recipes.getD []).map (fun r => r.id)).Nodup →
      ((handleImport st (some data) .merge).recipes.map (fun r => r.id)).Nodup) := by
  constructor
  · intro hp hi
    exact nodup_ids_append_filter _ _ _ _ (fun x hx => keepIngredient_id hx) hp hi
  · intro hp hi
    exact nodup_ids_append_filter _ _ _ _ (fun x hx => keepRecipe_id hx) hp hi

/-- Witness of claim C13: the example backup merged into the example state. -/
theorem handleImport_merge_ids_nodup_witness :
    (exampleState.ingredients.map (fun i => i.id)).Nodup ∧
    ((exampleBackup.ingredients.getD []).map (fun i => i.id)).Nodup ∧
    ((handleImport exampleState (some exampleBackup) .merge).ingredients.map
      (fun i => i.id)).Nodup :=
  have hp : (exampleState.ingredients.map (fun i => i.id)).Nodup := by decide
  have hi : ((exampleBackup.ingredients.getD []).map (fun i => i.id)).Nodup := by decide
  ⟨hp, hi, (handleImport_merge_ids_nodup exampleState exampleBackup).1 hp hi⟩

/-- Counterexample to claim C13 as stated: two incoming ingredients that share an id are
both appended to the empty collection, so the merged ids are not pairwise distinct. -/
theorem handleImport_merge_duplicate_incoming_ids :
    (emptyState.ingredients.map (fun i => i.id)).Nodup ∧
    (handleImport emptyState (some twinBackup) .merge).ingredients = [limeNoEn, lemonSameId] ∧
    ¬ ((handleImport emptyState (some twinBackup) .merge).ingredients.map
        (fun i => i.id)).Nodup := by
  have h : (handleImport emptyState (some twinBackup) .merge).ingredients =
      [limeNoEn, lemonSameId] := rfl
  refine ⟨by simp [emptyState], h, ?_⟩
  rw [h]
  decide

/-- Claim C14. Saving an item with a non-empty `nameZh` into a collection whose ids are
pairwise distinct gives a collection whose ids are pairwise distinct, of the same length
when the id was present and one longer when it was not, for ingredients and for
recipes. -/
theorem saveItem_ids_nodup (st : AppState) (now : String) :
    (∀ d : IngredientDraft, nonEmptyText d.nameZh = true →
      (st.ingredients.map (fun i => i.id)).Nodup →
      ((saveItem st (.ingredient d) now).ingredients.map (fun i => i.id)).Nodup ∧
      ((∃ x ∈ st.ingredients, x.id = d.id) →
        (saveItem st (.ingredient d) now).ingredients.length = st.ingredients.length) ∧
      ((∀ x ∈ st.ingredients, x.id ≠ d.id) →
        (saveItem st (.ingredient d) now).ingredients.length = st.ingredients.length + 1)) ∧
    (∀ r : Recipe, nonEmptyText r.nameZh = true →
      (st.recipes.map (fun x => x.id)).Nodup →
      ((saveItem st (.recipe r) now).recipes.map (fun x => x.id)).Nodup ∧
      ((∃ x ∈ st.recipes, x.id = r.id) →
        (saveItem st (.recipe r) now).recipes.length = st.recipes.length) ∧
      ((∀ x ∈ st.recipes, x.id ≠ r.id) →
        (saveItem st (.recipe r) now).recipes.length = st.recipes.length + 1)) := by
  constructor
  · intro d hname hp
    rw [(saveItem_ingredients st d now hname).1]
    have hpres : (∃ x ∈ st.ingredients, x.id = d.id) →
        saveIngredient st.ingredients (storedIngredient d) =
          st.ingredients.map (fun i => if i.id == d.id then storedIngredient d else i) :=
      fun h => saveIngredient_present st.ingredients (storedIngredient d) h
    have habs : (∀ x ∈ st.ingredients, x.id ≠ d.id) →
        saveIngredient st.ingredients (storedIngredient d) =
          st.ingredients ++ [storedIngredient d] :=
      fun h => saveIngredient_absent st.ingredients (storedIngredient d) h
    refine ⟨?_, ?_, ?_⟩
    · by_cases h : ∃ x ∈ st.ingredients, x.id = d.id
      · rw [hpres h]
        have := map_replace_ids (fun i : Ingredient => i.id) st.ingredients (storedIngredient d)
        rw [show (storedIngredient d).id = d.id from rfl] at this
        rw [this]; exact hp
      · have h2 : ∀ x ∈ st.ingredients, x.id ≠ d.id := fun x hx hid => h ⟨x, hx, hid⟩
        rw [habs h2]
        exact nodup_ids_append_new (fun i : Ingredient => i.id) _ _ h2 hp
    · intro h
      rw [hpres h, List.length_map]
    · intro h
      rw [habs h, List.length_append]; rfl
  · intro r hname hp
    rw [(saveItem_recipes st r now hname).1]
    refine ⟨?_, ?_, ?_⟩
    · by_cases h : ∃ x ∈ st.recipes, x.id = r.id
      · obtain ⟨stored, hid, hs⟩ := saveRecipe_present st.recipes (storedRecipe r) now h
        rw [hs]
        have := map_replace_ids (fun x : Recipe => x.id) st.recipes stored
        simp only [hid] at this
        rw [show (storedRecipe r).id = r.id from rfl] at this
        rw [show (storedRecipe r).id = r.id from rfl, this]; exact hp
      · have h2 : ∀ x ∈ st.recipes, x.id ≠ r.id := fun x hx hid => h ⟨x, hx, hid⟩
        rw [saveRecipe_absent st.recipes (storedRecipe r) now h2]
        exact nodup_ids_append_new (fun x : Recipe => x.id) _ _ h2 hp
    · intro h
      obtain ⟨stored, hid, hs⟩ := saveRecipe_present st.recipes (storedRecipe r) now h
      rw [hs, List.length_map]
    · intro h
      rw [saveRecipe_absent st.recipes (storedRecipe r) now h, List.length_append]; rfl

/-- Witness of claim C14: the gin saved again (its id is present) and the lime saved for
the first time (its id is absent). -/
theorem saveItem_ids_nodup_witness :
    ((saveItem exampleState (.ingredient ginDraft) "now").ingredients.map
        (fun i => i.id)).Nodup ∧
    (saveItem exampleState (.ingredient ginDraft) "now").ingredients.length = 1 ∧
    (saveItem exampleState (.ingredient limeDraft) "now").ingredients.length = 2 := by
  have hp : (exampleState.ingredients.map (fun i => i.id)).Nodup := by decide
  have h1 := (saveItem_ids_nodup exampleState "now").1 ginDraft rfl hp
  have h2 := (saveItem_ids_nodup exampleState "now").1 limeDraft rfl hp
  refine ⟨h1.1, h1.2.1 ⟨exampleGin, by simp [exampleState], rfl⟩, h2.2.2 ?_⟩
  intro x hx
  simp only [exampleState, List.mem_singleton] at hx
  subst hx
  decide

/-- Claim C15, at the failing input: the current gin has an English name made of one
space, the incoming lime has an empty English name, another id and another Chinese name;
the merge drops the lime. -/
theorem handleImport_merge_blank_nameEn_drops :
    limeNoEn.id ≠ ginBlankEn.id ∧
    normalizeStr limeNoEn.nameZh ≠ normalizeStr ginBlankEn.nameZh ∧
    nonEmptyText limeNoEn.nameEn = false ∧
    (handleImport blankEnState (some limeBackup) .merge).ingredients = [ginBlankEn] ∧
    limeNoEn ∉ (handleImport blankEnState (some limeBackup) .merge).ingredients := by
  have h : (handleImport blankEnState (some limeBackup) .merge).ingredients = [ginBlankEn] := rfl
  refine ⟨by decide, by decide, rfl, h, ?_⟩
  rw [h]
  intro hmem
  simp only [List.mem_singleton] at hmem
  have := congrArg Ingredient.id hmem
  exact absurd this (by decide)

/-- Claim C16, at the failing input: 45 of gin and a second line of gin whose amount is
the empty text, stirred. The result has `finalVol = NaN` and `finalAbv = 0`; with the
amount `0` in its place it has `finalVol = 65` and `finalAbv = 18 / 65 * 100`. -/
theorem stats_cleared_amount :
    (calculateRecipeStats clearedAmount [exampleGin]).finalVol = Num.nan ∧
    (calculateRecipeStats clearedAmount [exampleGin]).finalAbv = Num.fin 0 ∧
    (calculateRecipeStats zeroAmount [exampleGin]).finalVol = Num.fin 65 ∧
    (calculateRecipeStats zeroAmount [exampleGin]).finalAbv = Num.fin (18 / 65 * 100) ∧
    (calculateRecipeStats clearedAmount [exampleGin]).finalVol ≠
      (calculateRecipeStats zeroAmount [exampleGin]).finalVol ∧
    (calculateRecipeStats clearedAmount [exampleGin]).finalAbv ≠
      (calculateRecipeStats zeroAmount [exampleGin]).finalAbv := by
  have hp : parseFloatStr "" = Num.nan := by decide
  have hn : stringToNumber "" = Num.fin 0 := by decide
  have hd : dilution clearedAmount.technique = 20 := dilution_stir
  have hd2 : dilution zeroAmount.technique = 20 := dilution_stir
  have t1 : recipeTotals clearedAmount.ingredients [exampleGin] = ⟨36, Num.nan, Num.nan⟩ := by
    simp [recipeTotals, clearedAmount, exampleStirred, exampleGin, accumulate, countsAsLiquid,
      costPerUnit, volumeOrOne, Val.toNumber, Val.parseFloat, hp, hn]
    norm_num
  have t2 : recipeTotals zeroAmount.ingredients [exampleGin] = ⟨36, 45, 18⟩ := by
    simp [recipeTotals, zeroAmount, exampleStirred, exampleGin, accumulate, countsAsLiquid,
      costPerUnit, volumeOrOne, Val.toNumber, Val.parseFloat]
    norm_num
  have a1 : (calculateRecipeStats clearedAmount [exampleGin]).finalVol = Num.nan := by
    simp [calculateRecipeStats, t1, hd]
  have a2 : (calculateRecipeStats clearedAmount [exampleGin]).finalAbv = Num.fin 0 := by
    simp [calculateRecipeStats, t1, hd]
  have a3 : (calculateRecipeStats zeroAmount [exampleGin]).finalVol = Num.fin 65 := by
    simp [calculateRecipeStats, t2, hd2]; norm_num
  have a4 : (calculateRecipeStats zeroAmount [exampleGin]).finalAbv =
      Num.fin (18 / 65 * 100) := by
    simp [calculateRecipeStats, t2, hd2]; norm_num
  refine ⟨a1, a2, a3, a4, ?_, ?_⟩
  · rw [a1, a3]; exact fun h => Num.noConfusion h
  · rw [a2, a4]
    intro h
    have := Num.fin.inj h
    norm_num at this

/-- Claim C17. A recipe with a non-empty `nameZh`, an id that no stored recipe has and
the history `startEdit` gives a new recipe is appended as the last record, and its
stored history is empty. -/
theorem saveItem_new_recipe (st : AppState) (r : Recipe) (now : String)
    (hname : nonEmptyText r.nameZh = true)
    (hnew : ∀ x ∈ st.recipes, x.id ≠ r.id)
    (hhist : r.history = (blankRecipe r.id).history) :
    (saveItem st (.recipe r) now).recipes = st.recipes ++ [storedRecipe r] ∧
    (saveItem st (.recipe r) now).recipes.getLast? = some (storedRecipe r) ∧
    (storedRecipe r).history = some [] ∧
    (storedRecipe r).id = r.id := by
  have h1 : (saveItem st (.recipe r) now).recipes = st.recipes ++ [storedRecipe r] := by
    have hs : (saveItem st (.recipe r) now).recipes =
        saveRecipe st.recipes (storedRecipe r) now := by
      simp [saveItem, hname, storedRecipe]
    have hf : st.recipes.find? (fun x => x.id == (storedRecipe r).id) = none := by
      simp only [List.find?_eq_none, beq_iff_eq]
      exact hnew
    rw [hs]
    simp only [saveRecipe, hf]
  refine ⟨h1, by rw [h1]; simp, ?_, rfl⟩
  show r.history = some []
  rw [hhist]; rfl

/-- Witness of claim C17: the recipe `startEdit` creates under the id `r9`, saved once it
has a name. -/
theorem saveItem_new_recipe_witness :
    (startEdit exampleState .newRecipe "r9").editor = some (.recipe (blankRecipe "r9")) ∧
    (saveItem exampleState (.recipe namedBlankRecipe) "now").recipes =
      [stirredRecipe, storedRecipe namedBlankRecipe] ∧
    (storedRecipe namedBlankRecipe).history = some [] := by
  have h := saveItem_new_recipe exampleState namedBlankRecipe "now" rfl
    (by
      intro x hx
      simp only [exampleState, List.mem_singleton] at hx
      subst hx
      decide)
    rfl
  exact ⟨rfl, h.1, h.2.2.1⟩

/-- Claim C18. Saving an ingredient with a non-empty `nameZh` leaves the recipes
unchanged; when a record has its id, every record with that id is replaced in place by
the stored ingredient and the others stay where they are; when none has, the stored
ingredient is appended as the last record. The stored ingredient is the item of the
editor with its price and volume made numbers; it has no history field. -/
theorem saveItem_ingredient_upsert (st : AppState) (d : IngredientDraft) (now : String)
    (hname : nonEmptyText d.nameZh = true) :
    (saveItem st (.ingredient d) now).recipes = st.recipes ∧
    ((∃ x ∈ st.ingredients, x.id = d.id) →
      (saveItem st (.ingredient d) now).ingredients.length = st.ingredients.length ∧
      ∀ (i : ℕ) (x : Ingredient), st.ingredients[i]? = some x →
        (saveItem st (.ingredient d) now).ingredients[i]? =
          some (if x.id = d.id then storedIngredient d else x)) ∧
    ((∀ x ∈ st.ingredients, x.id ≠ d.id) →
      (saveItem st (.ingredient d) now).ingredients =
        st.ingredients ++ [storedIngredient d]) ∧
    (storedIngredient d).id = d.id ∧
    (storedIngredient d).price = parseFloatOrZero d.price ∧
    (storedIngredient d).volume = some (parseFloatOrZero d.volume) := by
  obtain ⟨hi, hr⟩ := saveItem_ingredients st d now hname
  refine ⟨hr, ?_, ?_, rfl, rfl, rfl⟩
  · intro h
    rw [hi, saveIngredient_present _ _ h]
    refine ⟨List.length_map _ _, ?_⟩
    intro i x hx
    rw [List.getElem?_map, hx]
    simp only [Option.map_some', Option.some.injEq]
    by_cases hid : x.id = d.id
    · simp [hid, storedIngredient]
    · have : ¬ (x.id == (storedIngredient d).id) = true := by
        simpa [storedIngredient] using hid
      simp [hid, this]
  · intro h
    rw [hi, saveIngredient_absent _ _ h]

/-- Witness of claim C18: the gin saved with a new price, and the lime saved for the
first time. -/
theorem saveItem_ingredient_upsert_witness :
    (saveItem exampleState (.ingredient ginDraft) "now").recipes = [stirredRecipe] ∧
    (saveItem exampleState (.ingredient ginDraft) "now").ingredients[0]? =
      some (storedIngredient ginDraft) ∧
    (saveItem exampleState (.ingredient limeDraft) "now").ingredients =
      [exampleGin, storedIngredient limeDraft] := by
  have h1 := saveItem_ingredient_upsert exampleState ginDraft "now" rfl
  have h2 := saveItem_ingredient_upsert exampleState limeDraft "now" rfl
  refine ⟨h1.1, ?_, h2.2.2.1 ?_⟩
  · have h := (h1.2.1 ⟨exampleGin, by simp [exampleState], rfl⟩).2 0 exampleGin rfl
    rw [h]
    rfl
  · intro x hx
    simp only [exampleState, List.mem_singleton] at hx
    subst hx
    decide

/-! ## Further claims on `calculateRecipeStats` -/

/-- Claim C19. The liquid volume is the sum of the amounts, and the alcohol volume the
sum of `amount * abv / 100`, over the items that resolve to an ingredient whose category
is not `other` and whose unit is `ml` or unspecified; inserting an item that resolves to
any other ingredient leaves `finalVol` and `finalAbv` unchanged and adds its cost term to
`totalCost`. -/
theorem stats_liquid_only (recipe : RecipeFields) (cat : List Ingredient) :
    ((recipeTotals recipe.ingredients cat).totalVol =
        Num.sum (specVolumeTerms (recipe.ingredients.getD []) cat) ∧
      (recipeTotals recipe.ingredients cat).totalAlcoholVol =
        Num.sum (specAlcoholTerms (recipe.ingredients.getD []) cat) ∧
      (∀ ing, countsAsLiquid ing = true ↔ isLiquid ing)) ∧
    (∀ (pre post : List RecipeItem) (item : RecipeItem) (ing : Ingredient),
      recipe.ingredients = some (pre ++ post) →
      cat.find? (fun i => i.id == item.id) = some ing → ¬ isLiquid ing →
      (calculateRecipeStats { recipe with ingredients := some (pre ++ item :: post) }
          cat).finalVol = (calculateRecipeStats recipe cat).finalVol ∧
      (calculateRecipeStats { recipe with ingredients := some (pre ++ item :: post) }
          cat).finalAbv = (calculateRecipeStats recipe cat).finalAbv ∧
      (calculateRecipeStats { recipe with ingredients := some (pre ++ item :: post) }
          cat).totalCost =
        Num.sum (specCostTerms pre cat ++
          (Num.fin (ing.price / specVolume ing) * item.amount.toNumber) ::
            specCostTerms post cat)) := by
  refine ⟨⟨(recipeTotals_volumes _ _).1, (recipeTotals_volumes _ _).2, countsAsLiquid_iff⟩, ?_⟩
  intro pre post item ing hi hf hl
  obtain ⟨hv, ha⟩ := specVolumeTerms_insert cat pre post item ing hf hl
  have hv1 := (recipeTotals_volumes (some (pre ++ item :: post)) cat).1
  have ha1 := (recipeTotals_volumes (some (pre ++ item :: post)) cat).2
  have hv2 := (recipeTotals_volumes (some (pre ++ post)) cat).1
  have ha2 := (recipeTotals_volumes (some (pre ++ post)) cat).2
  simp only [Option.getD_some] at hv1 ha1 hv2 ha2
  rw [hv] at hv1
  rw [ha] at ha1
  refine ⟨?_, ?_, ?_⟩
  · simp only [calculateRecipeStats, hi, hv1, hv2]
  · simp only [calculateRecipeStats, hi, hv1, hv2, ha1, ha2]
  · rw [stats_totalCost_sum]
    simp only [Option.getD_some]
    rw [specCostTerms_insert cat pre post item ing hf]

/-- Witness of claim C19: an olive, of category `other`, added to the stirred example. -/
theorem stats_liquid_only_witness :
    (calculateRecipeStats
        { exampleStirred with
          ingredients := some ([⟨"gin", .num 45⟩] ++ ⟨"olive", .num 1⟩ :: []) }
        [exampleGin, olive]).finalVol =
      (calculateRecipeStats exampleStirred [exampleGin, olive]).finalVol ∧
    (calculateRecipeStats
        { exampleStirred with
          ingredients := some ([⟨"gin", .num 45⟩] ++ ⟨"olive", .num 1⟩ :: []) }
        [exampleGin, olive]).finalAbv =
      (calculateRecipeStats exampleStirred [exampleGin, olive]).finalAbv := by
  have h := (stats_liquid_only exampleStirred [exampleGin, olive]).2
    [⟨"gin", .num 45⟩] [] ⟨"olive", .num 1⟩ olive rfl rfl (by decide)
  exact ⟨h.1, h.2.1⟩

/-- Claim C20. `finalVol` is the accumulated liquid volume plus the dilution; the
dilution is 20 when the technique in lower case contains `stir` or `攪拌`, else 30 when it
contains `shake` or `搖盪`, else 0, in particular for an absent or empty technique; two
techniques that differ by the case of their letters have the same dilution. -/
theorem stats_dilution (recipe : RecipeFields) (cat : List Ingredient) :
    (calculateRecipeStats recipe cat).finalVol =
      (recipeTotals recipe.ingredients cat).totalVol + dilution recipe.technique ∧
    (containsText (techLower recipe.technique) "stir" ∨
        containsText (techLower recipe.technique) "攪拌" →
      dilution recipe.technique = 20) ∧
    (¬ (containsText (techLower recipe.technique) "stir" ∨
          containsText (techLower recipe.technique) "攪拌") →
      (containsText (techLower recipe.technique) "shake" ∨
        containsText (techLower recipe.technique) "搖盪") →
      dilution recipe.technique = 30) ∧
    (¬ (containsText (techLower recipe.technique) "stir" ∨
          containsText (techLower recipe.technique) "攪拌") →
      ¬ (containsText (techLower recipe.technique) "shake" ∨
          containsText (techLower recipe.technique) "搖盪") →
      dilution recipe.technique = 0) ∧
    (recipe.technique = none ∨ recipe.technique = some "" → dilution recipe.technique = 0) ∧
    (∀ t, recipe.technique = some t → techLower recipe.technique = toLowerCase t) ∧
    (∀ s t : String, s.data.map Char.toLower = t.data.map Char.toLower →
      dilution (some s) = dilution (some t)) := by
  refine ⟨rfl, ?_, ?_, ?_, ?_, ?_, ?_⟩
  · intro h
    rw [dilution_eq_spec, specDilution, if_pos h]
  · intro h1 h2
    rw [dilution_eq_spec, specDilution, if_neg h1, if_pos h2]
  · intro h1 h2
    rw [dilution_eq_spec, specDilution, if_neg h1, if_neg h2]
  · rintro (h | h) <;> rw [h] <;> decide
  · intro t ht
    rw [ht, techLower_some]
  · intro s t h
    have : toLowerCase s = toLowerCase t := by
      unfold toLowerCase
      rw [h]
    rw [dilution_eq_spec, dilution_eq_spec, techLower_some, techLower_some, this]

/-- Witness of claim C20: the stirred example, and a technique written in capitals. -/
theorem stats_dilution_witness :
    dilution exampleStirred.technique = 20 ∧
    dilution (some "HARD SHAKE") = dilution (some "hard shake") ∧
    dilution (some "hard shake") = 30 :=
  ⟨(stats_dilution exampleStirred [exampleGin]).2.1
      (Or.inr ((includes_iff _ _).mp (by decide))),
    (stats_dilution exampleStirred [exampleGin]).2.2.2.2.2.2 "HARD SHAKE" "hard shake"
      (by decide),
    by decide⟩

/-! ## Lemmas for the last claims -/

theorem truthy_iff_isSetNonZero (v : Val) : v.truthy = true ↔ isSetNonZero v := by
  unfold isSetNonZero
  cases v with
  | undefined => simp [Val.truthy]
  | null => simp [Val.truthy]
  | num x =>
    cases x with
    | nan => simp [Val.truthy, Num.truthy]
    | fin q => simp [Val.truthy, Num.truthy]
  | str s =>
    simp only [Val.truthy, Bool.not_eq_true', ne_eq, not_false_eq_true, true_and,
      Val.str.injEq, and_true, reduceCtorEq]
    constructor
    · intro h hs
      rw [hs] at h
      exact absurd h (by decide)
    · intro h
      cases hd : s.data with
      | nil =>
        exfalso
        apply h
        cases s
        simp only at hd
        subst hd
        rfl
      | cons c cs => rfl

theorem exampleStirred_price :
    (calculateRecipeStats exampleStirred [exampleGin]).price.toNumber = Num.fin 150 := by
  have hceil : (⌈((36 : ℚ) * 4 / 10)⌉ : ℤ) = 15 := by
    rw [Int.ceil_eq_iff]; norm_num
  have hc : exampleStirred.customPrice.truthy = false := rfl
  simp only [calculateRecipeStats, exampleStirred_totals, hc]
  simp [TARGET_COST_RATE, hceil, Val.toNumber]
  norm_num

theorem usedIn_eq_blocking (id : String) (rs : List Recipe)
    (H : ∀ r ∈ rs, r.ingredients ≠ none) :
    usedIn id rs = .ok (blockingRecipes rs id) := by
  rw [usedIn_eq_filter id rs H]
  congr 1
  unfold blockingRecipes
  apply List.filter_congr
  intro r hr
  rw [Bool.eq_iff_iff, ← references_iff r id (H r hr)]
  simp [Recipe.references]

theorem mem_blockingRecipes (rs : List Recipe) (id : String) (r : Recipe) :
    r ∈ blockingRecipes rs id ↔ r ∈ rs ∧ r.references id := by
  simp [blockingRecipes, List.mem_filter, Recipe.references]

theorem ceil_price (c t : ℚ) (ht : 0 < t) :
    Num.ceil (Num.fin c / Num.fin t / 10) * 10 = Num.fin (10 * ((⌈c / t / 10⌉ : ℤ) : ℚ)) ∧
    (0 < c → 0 < (⌈c / t / 10⌉ : ℤ) ∧ c / (10 * ((⌈c / t / 10⌉ : ℤ) : ℚ)) ≤ t) := by
  constructor
  · simp [ne_of_gt ht]
    ring
  · intro hc
    have hpos : 0 < (⌈c / t / 10⌉ : ℤ) := by
      rw [Int.ceil_pos]; positivity
    have hq : (0 : ℚ) < ((⌈c / t / 10⌉ : ℤ) : ℚ) := by exact_mod_cast hpos
    refine ⟨hpos, ?_⟩
    have hle := Int.le_ceil (c / t / 10)
    rw [div_le_iff₀ (by positivity)]
    have h1 : c / t ≤ 10 * ((⌈c / t / 10⌉ : ℤ) : ℚ) := by linarith
    rw [div_le_iff₀ ht] at h1
    linarith

theorem volNum_ne_zero (q : QuickCalc) : q.volNum ≠ 0 := by
  unfold QuickCalc.volNum
  cases q.v.parseFloat with
  | nan => norm_num
  | fin x => by_cases hx : x = 0 <;> simp [hx]

theorem parseFloatStr_700 : parseFloatStr "700" = Num.fin 700 := by
  have ha : ("700".data.dropWhile isJsSpace) = ['7', '0', '0'] := by decide
  have hb : (['7', '0', '0'].takeWhile Char.isDigit) = ['7', '0', '0'] := by decide
  have hc : (['7', '0', '0'].dropWhile Char.isDigit) = [] := by decide
  have hd : digitsValue ['7', '0', '0'] = 700 := by decide
  have he : scanSigned ['7', '0', '0'] = scanUnsigned ['7', '0', '0'] := rfl
  have hf : scanUnsigned ['7', '0', '0'] = some (700, []) := by
    unfold scanUnsigned
    simp only [hb, hc, hd]
    norm_num [digitsValue]
  unfold parseFloatStr
  rw [ha, he, hf]

theorem containsText_toLowerCase (t needle : String) (hn : toLowerCase needle = needle)
    (h : containsText t needle) : containsText (toLowerCase t) needle := by
  unfold containsText at *
  have hm : needle.data.map Char.toLower = needle.data := by
    have := congrArg String.data hn
    simpa [toLowerCase] using this
  obtain ⟨pre, post, hpp⟩ := h
  refine ⟨pre.map Char.toLower, post.map Char.toLower, ?_⟩
  show _ = (t.data.map Char.toLower)
  rw [← hpp, List.map_append, List.map_append, hm]

theorem filter_keep_nil {α : Type} (keep : List α → α → Bool) (m inc : List α)
    (h : ∀ x ∈ inc, keep m x = false) : inc.filter (keep m) = [] := by
  rw [List.filter_eq_nil_iff]
  intro x hx
  rw [h x hx]
  exact Bool.false_ne_true

theorem keepIngredient_merged (prev inc : List Ingredient) :
    ∀ x ∈ inc, keepIngredient (mergeIngredients prev inc) x = false := by
  intro x hx
  rw [← Bool.not_eq_true, keepIngredient_iff]
  intro hall
  by_cases hk : keepIngredient prev x = true
  · have hm : x ∈ mergeIngredients prev inc :=
      List.mem_append_right _ (List.mem_filter.mpr ⟨hx, hk⟩)
    exact hall x hm (Or.inl rfl)
  · rw [keepIngredient_iff] at hk
    push_neg at hk
    obtain ⟨old, hold, hc⟩ := hk
    exact hall old (List.mem_append_left _ hold) hc

theorem keepRecipe_merged (prev inc : List Recipe) :
    ∀ x ∈ inc, keepRecipe (mergeRecipes prev inc) x = false := by
  intro x hx
  rw [← Bool.not_eq_true, keepRecipe_iff]
  intro hall
  by_cases hk : keepRecipe prev x = true
  · have hm : x ∈ mergeRecipes prev inc :=
      List.mem_append_right _ (List.mem_filter.mpr ⟨hx, hk⟩)
    exact hall x hm (Or.inl rfl)
  · rw [keepRecipe_iff] at hk
    push_neg at hk
    obtain ⟨old, hold, hc⟩ := hk
    exact hall old (List.mem_append_left _ hold) hc

theorem mergeIngredients_idem (prev inc : List Ingredient) :
    mergeIngredients (mergeIngredients prev inc) inc = mergeIngredients prev inc := by
  have := filter_keep_nil keepIngredient (mergeIngredients prev inc) inc
    (keepIngredient_merged prev inc)
  have e : mergeIngredients (mergeIngredients prev inc) inc =
      mergeIngredients prev inc ++
        inc.filter (keepIngredient (mergeIngredients prev inc)) := rfl
  rw [e, this, List.append_nil]

theorem mergeRecipes_idem (prev inc : List Recipe) :
    mergeRecipes (mergeRecipes prev inc) inc = mergeRecipes prev inc := by
  have := filter_keep_nil keepRecipe (mergeRecipes prev inc) inc
    (keepRecipe_merged prev inc)
  have e : mergeRecipes (mergeRecipes prev inc) inc =
      mergeRecipes prev inc ++ inc.filter (keepRecipe (mergeRecipes prev inc)) := rfl
  rw [e, this, List.append_nil]

theorem mergeIngredients_self (prev : List Ingredient) : mergeIngredients prev prev = prev := by
  unfold mergeIngredients
  rw [filter_keep_nil keepIngredient prev prev, List.append_nil]
  intro x hx
  rw [← Bool.not_eq_true, keepIngredient_iff]
  exact fun hall => hall x hx (Or.inl rfl)

theorem mergeRecipes_self (prev : List Recipe) : mergeRecipes prev prev = prev := by
  unfold mergeRecipes
  rw [filter_keep_nil keepRecipe prev prev, List.append_nil]
  intro x hx
  rw [← Bool.not_eq_true, keepRecipe_iff]
  exact fun hall => hall x hx (Or.inl rfl)

namespace Num
theorem add_comm_num (a b : Num) : a + b = b + a := by
  cases a <;> cases b <;> simp [add_comm]
end Num

theorem accumulate_comm (cat : List Ingredient) (acc : Totals) (x y : RecipeItem) :
    accumulate cat (accumulate cat acc x) y = accumulate cat (accumulate cat acc y) x := by
  have swap : ∀ a b c : Num, a + b + c = a + c + b := by
    intro a b c
    rw [Num.add_assoc_num, Num.add_comm_num b c, ← Num.add_assoc_num]
  unfold accumulate
  cases hx : cat.find? (fun i => i.id == x.id) with
  | none =>
    cases hy : cat.find? (fun i => i.id == y.id) <;> simp
  | some ix =>
    cases hy : cat.find? (fun i => i.id == y.id) with
    | none => simp
    | some iy =>
      by_cases lx : countsAsLiquid ix = true <;> by_cases ly : countsAsLiquid iy = true <;>
        simp [lx, ly, swap]

theorem foldl_accumulate_perm (cat : List Ingredient) {l1 l2 : List RecipeItem}
    (h : l1.Perm l2) (acc : Totals) :
    l1.foldl (accumulate cat) acc = l2.foldl (accumulate cat) acc :=
  List.Perm.foldl_eq' h (fun x _ y _ z => accumulate_comm cat z x y) acc

theorem foldl_liquid_bounds (cat : List Ingredient) (items : List RecipeItem)
    (hA : ∀ item ∈ items, ∃ a : ℚ, 0 ≤ a ∧ item.amount.parseFloat = Num.fin a)
    (hB : ∀ item ∈ items, ∀ ing, cat.find? (fun i => i.id == item.id) = some ing →
      ∃ b : ℚ, 0 ≤ b ∧ ing.abv.toNumber = Num.fin b)
    (acc : Totals) (V A : ℚ) (hV : acc.totalVol = Num.fin V)
    (hAl : acc.totalAlcoholVol = Num.fin A) :
    ∃ V1 A1 : ℚ, (items.foldl (accumulate cat) acc).totalVol = Num.fin V1 ∧
      (items.foldl (accumulate cat) acc).totalAlcoholVol = Num.fin A1 ∧
      V ≤ V1 ∧ A ≤ A1 ∧ (V1 = V → A1 = A) ∧
      ((∀ item ∈ items, ∀ ing, cat.find? (fun i => i.id == item.id) = some ing →
          ∀ b : ℚ, ing.abv.toNumber = Num.fin b → b ≤ 100) → A1 - A ≤ V1 - V) := by
  induction items generalizing acc V A with
  | nil => exact ⟨V, A, hV, hAl, le_refl _, le_refl _, fun _ => rfl, fun _ => by simp⟩
  | cons item rest ih =>
    have hAr : ∀ x ∈ rest, ∃ a : ℚ, 0 ≤ a ∧ x.amount.parseFloat = Num.fin a :=
      fun x hx => hA x (List.mem_cons_of_mem _ hx)
    have hBr : ∀ x ∈ rest, ∀ ing, cat.find? (fun i => i.id == x.id) = some ing →
        ∃ b : ℚ, 0 ≤ b ∧ ing.abv.toNumber = Num.fin b :=
      fun x hx => hB x (List.mem_cons_of_mem _ hx)
    rw [List.foldl_cons]
    cases hf : cat.find? (fun i => i.id == item.id) with
    | none =>
      rw [accumulate_none hf]
      obtain ⟨V1, A1, h1, h2, h3, h4, h5, h6⟩ := ih hAr hBr acc V A hV hAl
      exact ⟨V1, A1, h1, h2, h3, h4, h5,
        fun hU => h6 (fun x hx => hU x (List.mem_cons_of_mem _ hx))⟩
    | some ing =>
      obtain ⟨a, ha, hpa⟩ := hA item (List.mem_cons_self _ _)
      obtain ⟨b, hb, hpb⟩ := hB item (List.mem_cons_self _ _) ing hf
      by_cases hl : countsAsLiquid ing = true
      · have hV2 : (accumulate cat acc item).totalVol = Num.fin (V + a) := by
          simp [accumulate, hf, hl, hV, hpa]
        have hA2 : (accumulate cat acc item).totalAlcoholVol = Num.fin (A + a * (b / 100)) := by
          simp [accumulate, hf, hl, hAl, hpa, hpb]
        obtain ⟨V1, A1, h1, h2, h3, h4, h5, h6⟩ :=
          ih hAr hBr (accumulate cat acc item) (V + a) (A + a * (b / 100)) hV2 hA2
        have hab : 0 ≤ a * (b / 100) := by positivity
        refine ⟨V1, A1, h1, h2, by linarith, by linarith, ?_, ?_⟩
        · intro hEq
          have ha0 : a = 0 := by linarith
          have := h5 (by rw [hEq, ha0]; ring)
          rw [this, ha0]; ring
        · intro hU
          have hb100 : b ≤ 100 := hU item (List.mem_cons_self _ _) ing hf b hpb
          have := h6 (fun x hx => hU x (List.mem_cons_of_mem _ hx))
          have hab2 : a * (b / 100) ≤ a := by
            have : b / 100 ≤ 1 := by
              rw [div_le_one (by norm_num)]; exact hb100
            calc a * (b / 100) ≤ a * 1 := mul_le_mul_of_nonneg_left this ha
              _ = a := mul_one a
          linarith
      · have hl2 : countsAsLiquid ing = false := by simpa using hl
        have hV2 : (accumulate cat acc item).totalVol = Num.fin V := by
          simp [accumulate, hf, hl2, hV]
        have hA2 : (accumulate cat acc item).totalAlcoholVol = Num.fin A := by
          simp [accumulate, hf, hl2, hAl]
        obtain ⟨V1, A1, h1, h2, h3, h4, h5, h6⟩ :=
          ih hAr hBr (accumulate cat acc item) V A hV2 hA2
        exact ⟨V1, A1, h1, h2, h3, h4, h5,
          fun hU => h6 (fun x hx => hU x (List.mem_cons_of_mem _ hx))⟩

theorem recipeTotals_bounds (cat : List Ingredient) (items : Option (List RecipeItem))
    (hA : ∀ l, items = some l → ∀ item ∈ l, ∃ a : ℚ, 0 ≤ a ∧ item.amount.parseFloat = Num.fin a)
    (hB : ∀ l, items = some l → ∀ item ∈ l, ∀ ing,
      cat.find? (fun i => i.id == item.id) = some ing →
      ∃ b : ℚ, 0 ≤ b ∧ ing.abv.toNumber = Num.fin b) :
    ∃ V A : ℚ, (recipeTotals items cat).totalVol = Num.fin V ∧
      (recipeTotals items cat).totalAlcoholVol = Num.fin A ∧
      0 ≤ V ∧ 0 ≤ A ∧ (V = 0 → A = 0) ∧
      ((∀ l, items = some l → ∀ item ∈ l, ∀ ing,
          cat.find? (fun i => i.id == item.id) = some ing →
          ∀ b : ℚ, ing.abv.toNumber = Num.fin b → b ≤ 100) → A ≤ V) := by
  cases items with
  | none =>
    exact ⟨0, 0, by simp [recipeTotals], by simp [recipeTotals], le_refl _, le_refl _,
      fun _ => rfl, fun _ => le_refl _⟩
  | some l =>
    obtain ⟨V, A, h1, h2, h3, h4, h5, h6⟩ :=
      foldl_liquid_bounds cat l (hA l rfl) (hB l rfl) ⟨0, 0, 0⟩ 0 0 (by simp) (by simp)
    refine ⟨V, A, h1, h2, h3, h4, h5, ?_⟩
    intro hU
    have := h6 (hU l rfl)
    linarith

theorem finalAbv_of_totals (recipe : RecipeFields) (cat : List Ingredient) (V A d : ℚ)
    (hV : (recipeTotals recipe.ingredients cat).totalVol = Num.fin V)
    (hA : (recipeTotals recipe.ingredients cat).totalAlcoholVol = Num.fin A)
    (hd : dilution recipe.technique = Num.fin d) :
    (calculateRecipeStats recipe cat).finalVol = Num.fin (V + d) ∧
    (calculateRecipeStats recipe cat).finalAbv =
      if 0 < V + d then Num.fin (A / (V + d) * 100) else Num.fin 0 := by
  simp only [calculateRecipeStats, hV, hA, hd]
  by_cases h : 0 < V + d
  · simp [h, ne_of_gt h]
  · simp [h]

theorem dilution_fin (t : Option String) :
    ∃ d : ℚ, dilution t = Num.fin d ∧ (d = 0 ∨ d = 20 ∨ d = 30) := by
  rcases dilution_cases t with h | h | h
  · exact ⟨20, by rw [h]; simp, Or.inr (Or.inl rfl)⟩
  · exact ⟨30, by rw [h]; simp, Or.inr (Or.inr rfl)⟩
  · exact ⟨0, by rw [h]; simp, Or.inl rfl⟩

/-! ## Last claims on `calculateRecipeStats` -/

/-- Claim C21. The returned price is the custom price when it is set and non-zero, and
the suggested price otherwise; a custom price of `0` gives the suggested price and a
non-zero number is returned as it is. A custom price held as a non-empty text counts as
set. -/
theorem stats_price (recipe : RecipeFields) (cat : List Ingredient) :
    (isSetNonZero recipe.customPrice →
      (calculateRecipeStats recipe cat).price = recipe.customPrice) ∧
    (¬ isSetNonZero recipe.customPrice →
      (calculateRecipeStats recipe cat).price =
        .num (calculateRecipeStats recipe cat).suggestedPrice) ∧
    (recipe.customPrice = .num (.fin 0) →
      (calculateRecipeStats recipe cat).price =
        .num (calculateRecipeStats recipe cat).suggestedPrice) ∧
    (∀ q : ℚ, q ≠ 0 → recipe.customPrice = .num (.fin q) →
      (calculateRecipeStats recipe cat).price = .num (.fin q)) := by
  have h1 : ∀ h : recipe.customPrice.truthy = true,
      (calculateRecipeStats recipe cat).price = recipe.customPrice := by
    intro h
    simp only [calculateRecipeStats, h, if_true]
  have h2 : ∀ h : recipe.customPrice.truthy = false,
      (calculateRecipeStats recipe cat).price =
        .num (calculateRecipeStats recipe cat).suggestedPrice := by
    intro h
    simp only [calculateRecipeStats, h, Bool.false_eq_true, if_false]
  refine ⟨fun h => h1 ((truthy_iff_isSetNonZero _).mpr h), ?_, ?_, ?_⟩
  · intro h
    apply h2
    rw [← Bool.not_eq_true, truthy_iff_isSetNonZero]
    exact h
  · intro h
    apply h2
    rw [h]
    simp [Val.truthy, Num.truthy]
  · intro q hq h
    rw [h1 (by rw [h]; simp [Val.truthy, Num.truthy, hq]), h]

/-- Witness of claim C21: a custom price of 200, and the example without one. -/
theorem stats_price_witness :
    (calculateRecipeStats examplePriced [exampleGin]).price = .num (.fin 200) ∧
    (calculateRecipeStats exampleStirred [exampleGin]).price =
      .num (calculateRecipeStats exampleStirred [exampleGin]).suggestedPrice :=
  ⟨(stats_price examplePriced [exampleGin]).2.2.2 200 (by norm_num) rfl,
    (stats_price exampleStirred [exampleGin]).2.1 (fun h => h.1 rfl)⟩

/-- Claim C22. With `p` the price as a number: the cost rate is `totalCost / p * 100` when
`p > 0`, a division by a non-zero number, and `0` when `p ≤ 0` (or when `p` is `NaN`);
the margin is `p - totalCost`. -/
theorem stats_costRate_margin (recipe : RecipeFields) (cat : List Ingredient) :
    (∀ p : ℚ, (calculateRecipeStats recipe cat).price.toNumber = Num.fin p → 0 < p →
      p ≠ 0 ∧
      (calculateRecipeStats recipe cat).costRate =
        (calculateRecipeStats recipe cat).totalCost / Num.fin p * 100) ∧
    (∀ p : ℚ, (calculateRecipeStats recipe cat).price.toNumber = Num.fin p → p ≤ 0 →
      (calculateRecipeStats recipe cat).costRate = 0) ∧
    ((calculateRecipeStats recipe cat).price.toNumber = Num.nan →
      (calculateRecipeStats recipe cat).costRate = 0) ∧
    (calculateRecipeStats recipe cat).margin =
      (calculateRecipeStats recipe cat).price.toNumber -
        (calculateRecipeStats recipe cat).totalCost ∧
    (∀ p c : ℚ, (calculateRecipeStats recipe cat).price.toNumber = Num.fin p → 0 < p →
      (calculateRecipeStats recipe cat).totalCost = Num.fin c →
      (calculateRecipeStats recipe cat).costRate = Num.fin (c / p * 100) ∧
      (calculateRecipeStats recipe cat).margin = Num.fin (p - c)) := by
  have hcr : (calculateRecipeStats recipe cat).costRate =
      if (calculateRecipeStats recipe cat).price.toNumber.gt 0 then
        (calculateRecipeStats recipe cat).totalCost /
          (calculateRecipeStats recipe cat).price.toNumber * 100
      else 0 := rfl
  have hm : (calculateRecipeStats recipe cat).margin =
      (calculateRecipeStats recipe cat).price.toNumber -
        (calculateRecipeStats recipe cat).totalCost := rfl
  refine ⟨?_, ?_, ?_, hm, ?_⟩
  · intro p hp hpos
    refine ⟨ne_of_gt hpos, ?_⟩
    rw [hcr, hp]
    simp [hpos]
  · intro p hp hle
    rw [hcr, hp]
    simp [not_lt.mpr hle]
  · intro hp
    rw [hcr, hp]
    simp
  · intro p c hp hpos hc
    rw [hm, hcr, hp, hc]
    simp [hpos, ne_of_gt hpos]

/-- Witness of claim C22: the stirred example, of price 150 and total cost 36. -/
theorem stats_costRate_margin_witness :
    (calculateRecipeStats exampleStirred [exampleGin]).costRate = Num.fin (36 / 150 * 100) ∧
    (calculateRecipeStats exampleStirred [exampleGin]).margin = Num.fin (150 - 36) :=
  (stats_costRate_margin exampleStirred [exampleGin]).2.2.2.2 150 36 exampleStirred_price
    (by norm_num) exampleStirred_totalCost

/-- Claim C27. When every amount of the recipe is a non-negative number and every
ingredient an item resolves to has a strength between 0 and 100, `finalAbv` is a number
between 0 and 100. -/
theorem finalAbv_bounds (recipe : RecipeFields) (cat : List Ingredient)
    (hA : ∀ l, recipe.ingredients = some l → ∀ item ∈ l,
      ∃ a : ℚ, 0 ≤ a ∧ item.amount.parseFloat = Num.fin a)
    (hB : ∀ l, recipe.ingredients = some l → ∀ item ∈ l, ∀ ing,
      cat.find? (fun i => i.id == item.id) = some ing →
      ∃ b : ℚ, 0 ≤ b ∧ b ≤ 100 ∧ ing.abv.toNumber = Num.fin b) :
    ∃ x : ℚ, (calculateRecipeStats recipe cat).finalAbv = Num.fin x ∧ 0 ≤ x ∧ x ≤ 100 := by
  obtain ⟨V, A, hV, hAl, hV0, hA0, _, hle⟩ := recipeTotals_bounds cat recipe.ingredients hA
    (fun l hl item hi ing hf => by
      obtain ⟨b, hb, _, hpb⟩ := hB l hl item hi ing hf
      exact ⟨b, hb, hpb⟩)
  have hAV : A ≤ V := hle (fun l hl item hi ing hf b hb => by
    obtain ⟨b2, _, hb100, hpb⟩ := hB l hl item hi ing hf
    rw [hpb] at hb
    cases hb
    exact hb100)
  obtain ⟨d, hd, hdv⟩ := dilution_fin recipe.technique
  have hd0 : 0 ≤ d := by rcases hdv with h | h | h <;> rw [h] <;> norm_num
  rw [(finalAbv_of_totals recipe cat V A d hV hAl hd).2]
  by_cases h : 0 < V + d
  · refine ⟨A / (V + d) * 100, by simp [h], by positivity, ?_⟩
    have : A / (V + d) ≤ 1 := by
      rw [div_le_one h]; linarith
    linarith
  · exact ⟨0, by simp [h], le_refl _, by norm_num⟩

/-- Witness of claim C27: the stirred example. -/
theorem finalAbv_bounds_witness :
    ∃ x : ℚ, (calculateRecipeStats exampleStirred [exampleGin]).finalAbv = Num.fin x ∧
      0 ≤ x ∧ x ≤ 100 :=
  finalAbv_bounds exampleStirred [exampleGin]
    (by
      intro l hl item hi
      simp only [exampleStirred, Option.some.injEq] at hl
      subst hl
      simp only [List.mem_singleton] at hi
      subst hi
      exact ⟨45, by norm_num, rfl⟩)
    (by
      intro l hl item hi ing hf
      simp only [exampleStirred, Option.some.injEq] at hl
      subst hl
      simp only [List.mem_singleton] at hi
      subst hi
      have hg : [exampleGin].find? (fun i => i.id == "gin") = some exampleGin := rfl
      rw [hg] at hf
      cases hf
      exact ⟨40, by norm_num, by norm_num, rfl⟩)

/-- Claim C28. For an ingredient list whose amounts and strengths are non-negative
numbers, the `finalAbv` of a recipe with no dilution (no technique) is at least the one of
a stirred recipe (dilution 20), which is at least the one of a shaken recipe (dilution
30); the three have the same `totalCost` and the same `suggestedPrice`. -/
theorem dilution_lowers_finalAbv (cat : List Ingredient) (l : List RecipeItem) (r0 r1 r2 : RecipeFields)
    (hA : ∀ item ∈ l, ∃ a : ℚ, 0 ≤ a ∧ item.amount.parseFloat = Num.fin a)
    (hB : ∀ item ∈ l, ∀ ing, cat.find? (fun i => i.id == item.id) = some ing →
      ∃ b : ℚ, 0 ≤ b ∧ ing.abv.toNumber = Num.fin b)
    (h0 : r0.ingredients = some l) (h1 : r1.ingredients = some l)
    (h2 : r2.ingredients = some l)
    (t0 : dilution r0.technique = 0) (t1 : dilution r1.technique = 20)
    (t2 : dilution r2.technique = 30) :
    (∃ x0 x1 x2 : ℚ, (calculateRecipeStats r0 cat).finalAbv = Num.fin x0 ∧
      (calculateRecipeStats r1 cat).finalAbv = Num.fin x1 ∧
      (calculateRecipeStats r2 cat).finalAbv = Num.fin x2 ∧ x1 ≤ x0 ∧ x2 ≤ x1) ∧
    (calculateRecipeStats r0 cat).totalCost = (calculateRecipeStats r1 cat).totalCost ∧
    (calculateRecipeStats r1 cat).totalCost = (calculateRecipeStats r2 cat).totalCost ∧
    (calculateRecipeStats r0 cat).suggestedPrice =
      (calculateRecipeStats r1 cat).suggestedPrice ∧
    (calculateRecipeStats r1 cat).suggestedPrice =
      (calculateRecipeStats r2 cat).suggestedPrice := by
  obtain ⟨V, A, hV, hAl, hV0, hA0, hz, _⟩ := recipeTotals_bounds cat (some l)
    (fun l2 hl => by cases hl; exact hA) (fun l2 hl => by cases hl; exact hB)
  have d0 : dilution r0.technique = Num.fin 0 := by rw [t0]; simp
  have d1 : dilution r1.technique = Num.fin 20 := by rw [t1]; simp
  have d2 : dilution r2.technique = Num.fin 30 := by rw [t2]; simp
  have e0 := (finalAbv_of_totals r0 cat V A 0 (by rw [h0]; exact hV) (by rw [h0]; exact hAl) d0).2
  have e1 := (finalAbv_of_totals r1 cat V A 20 (by rw [h1]; exact hV) (by rw [h1]; exact hAl) d1).2
  have e2 := (finalAbv_of_totals r2 cat V A 30 (by rw [h2]; exact hV) (by rw [h2]; exact hAl) d2).2
  have p1 : 0 < V + 20 := by linarith
  have p2 : 0 < V + 30 := by linarith
  rw [if_pos p1] at e1
  rw [if_pos p2] at e2
  refine ⟨?_, ?_, ?_, ?_, ?_⟩
  · have h12 : A / (V + 30) * 100 ≤ A / (V + 20) * 100 := by
      have : A / (V + 30) ≤ A / (V + 20) :=
        div_le_div_of_nonneg_left hA0 p1 (by linarith)
      linarith
    by_cases hVpos : 0 < V
    · have hV0' : 0 < V + 0 := by linarith
      rw [if_pos hV0'] at e0
      refine ⟨_, _, _, e0, e1, e2, ?_, h12⟩
      have : A / (V + 20) ≤ A / (V + 0) :=
        div_le_div_of_nonneg_left hA0 hV0' (by linarith)
      linarith
    · have hVz : V = 0 := le_antisymm (not_lt.mp hVpos) hV0
      have hAz : A = 0 := hz hVz
      have hn : ¬ 0 < V + 0 := by rw [hVz]; norm_num
      rw [if_neg hn] at e0
      refine ⟨_, _, _, e0, e1, e2, ?_, h12⟩
      rw [hAz]; simp
  · simp only [calculateRecipeStats, h0, h1]
  · simp only [calculateRecipeStats, h1, h2]
  · simp only [calculateRecipeStats, h0, h1]
  · simp only [calculateRecipeStats, h1, h2]

/-- Witness of claim C28: 45 of gin built, stirred and shaken. -/
theorem dilution_lowers_finalAbv_witness :
    ∃ x0 x1 x2 : ℚ, (calculateRecipeStats exampleBuilt [exampleGin]).finalAbv = Num.fin x0 ∧
      (calculateRecipeStats exampleStirred [exampleGin]).finalAbv = Num.fin x1 ∧
      (calculateRecipeStats exampleShaken [exampleGin]).finalAbv = Num.fin x2 ∧
      x1 ≤ x0 ∧ x2 ≤ x1 :=
  (dilution_lowers_finalAbv [exampleGin] [⟨"gin", .num 45⟩] exampleBuilt exampleStirred
    exampleShaken
    (by
      intro item hi
      simp only [List.mem_singleton] at hi
      subst hi
      exact ⟨45, by norm_num, rfl⟩)
    (by
      intro item hi ing hf
      simp only [List.mem_singleton] at hi
      subst hi
      have hg : [exampleGin].find? (fun i => i.id == "gin") = some exampleGin := rfl
      rw [hg] at hf
      cases hf
      exact ⟨40, by norm_num, rfl⟩)
    rfl rfl rfl (by decide) (by decide) (by decide)).1

/-- Claim C29. Two recipes whose ingredient lists are permutations of each other, with
the same technique and custom price, have the same result, field by field. -/
theorem stats_perm (r1 r2 : RecipeFields) (cat : List Ingredient) (l1 l2 : List RecipeItem)
    (h1 : r1.ingredients = some l1) (h2 : r2.ingredients = some l2) (hp : l1.Perm l2)
    (ht : r1.technique = r2.technique) (hc : r1.customPrice = r2.customPrice) :
    calculateRecipeStats r1 cat = calculateRecipeStats r2 cat := by
  have : recipeTotals r1.ingredients cat = recipeTotals r2.ingredients cat := by
    rw [h1, h2]
    exact foldl_accumulate_perm cat hp _
  simp only [calculateRecipeStats, this, ht, hc]

/-- Witness of claim C29: the gin and the olive in the two orders. -/
theorem stats_perm_witness :
    calculateRecipeStats ginThenOlive [exampleGin, olive] =
      calculateRecipeStats oliveThenGin [exampleGin, olive] :=
  stats_perm ginThenOlive oliveThenGin [exampleGin, olive] _ _ rfl rfl
    (List.Perm.swap _ _ _) rfl rfl

/-- Claim C30. When the technique contains a stir literal and a shake literal, in lower
case or as it is written, the dilution is 20 and `finalVol` is the liquid volume plus
20. -/
theorem dilution_stir_precedence (recipe : RecipeFields) (cat : List Ingredient) :
    ((containsText (techLower recipe.technique) "stir" ∨
        containsText (techLower recipe.technique) "攪拌") →
      (containsText (techLower recipe.technique) "shake" ∨
        containsText (techLower recipe.technique) "搖盪") →
      dilution recipe.technique = 20 ∧
      (calculateRecipeStats recipe cat).finalVol =
        (recipeTotals recipe.ingredients cat).totalVol + 20) ∧
    (∀ t : String, recipe.technique = some t →
      (containsText t "stir" ∨ containsText t "攪拌") →
      (containsText t "shake" ∨ containsText t "搖盪") →
      dilution recipe.technique = 20 ∧
      (calculateRecipeStats recipe cat).finalVol =
        (recipeTotals recipe.ingredients cat).totalVol + 20) := by
  have key : (containsText (techLower recipe.technique) "stir" ∨
        containsText (techLower recipe.technique) "攪拌") →
      dilution recipe.technique = 20 ∧
      (calculateRecipeStats recipe cat).finalVol =
        (recipeTotals recipe.ingredients cat).totalVol + 20 := by
    intro h
    have hd : dilution recipe.technique = 20 := by
      rw [dilution_eq_spec, specDilution, if_pos h]
    refine ⟨hd, ?_⟩
    show (recipeTotals recipe.ingredients cat).totalVol + dilution recipe.technique = _
    rw [hd]
  refine ⟨fun h _ => key h, ?_⟩
  intro t ht h _
  apply key
  rw [ht, techLower_some]
  rcases h with h | h
  · exact Or.inl (containsText_toLowerCase t "stir" (by decide) h)
  · exact Or.inr (containsText_toLowerCase t "攪拌" (by decide) h)

/-- Witness of claim C30: the technique `Shake then Stir`. -/
theorem dilution_stir_precedence_witness :
    dilution (some "Shake then Stir") = 20 :=
  ((dilution_stir_precedence { exampleStirred with technique := some "Shake then Stir" }
      [exampleGin]).1
    (Or.inl ((includes_iff _ _).mp (by decide)))
    (Or.inl ((includes_iff _ _).mp (by decide)))).1

/-! ## Last claims on the state operations and the neat pours -/

/-- Where every recipe carries an ingredient list, `requestDelete` does what claim C23
requires: the request to delete an ingredient opens an alert if and only if some recipe
lists the id; the alert has no callback and its message names the `nameZh` of exactly the
recipes that list the id, in collection order, joined by `、`; otherwise a confirmation
is opened. -/
theorem requestDelete_blocking_names (st : AppState) (id : String) (H : ∀ r ∈ st.recipes, r.ingredients ≠ none) :
    ∃ st1, requestDelete st id .ingredient = .ok st1 ∧
      (st1.dialog.type = .alert ↔ ∃ r ∈ st.recipes, r.references id) ∧
      (st1.dialog.type = .alert →
        st1.dialog.onConfirm = none ∧
        st1.dialog.message =
          "此材料 (" ++ targetName st.ingredients id ++ ") 正被以下酒譜使用中：\n\n" ++
            String.intercalate "、"
              ((blockingRecipes st.recipes id).map (fun r => r.nameZh.getD "")) ++
            "\n\n請先修改這些酒譜並移除此材料，才能進行刪除。") ∧
      (st1.dialog.type ≠ .alert →
        st1.dialog.type = .confirm ∧ st1.dialog.onConfirm = some (.deleteIngredient id)) ∧
      (∀ r, r ∈ blockingRecipes st.recipes id ↔ r ∈ st.recipes ∧ r.references id) ∧
      (blockingRecipes st.recipes id).Sublist st.recipes := by
  have hu := usedIn_eq_blocking id st.recipes H
  have hmem := mem_blockingRecipes st.recipes id
  have hsub : (blockingRecipes st.recipes id).Sublist st.recipes := List.filter_sublist _
  have hlen : (blockingRecipes st.recipes id).length > 0 ↔
      ∃ r ∈ st.recipes, r.references id := by
    rw [gt_iff_lt, List.length_pos_iff_exists_mem]
    constructor
    · rintro ⟨r, hr⟩
      exact ⟨r, (hmem r).mp hr⟩
    · rintro ⟨r, hr⟩
      exact ⟨r, (hmem r).mpr hr⟩
  by_cases hpos : (blockingRecipes st.recipes id).length > 0
  · refine ⟨showAlert st "無法刪除此材料"
        ("此材料 (" ++ targetName st.ingredients id ++ ") 正被以下酒譜使用中：\n\n" ++
          joinNames (blockingRecipes st.recipes id) ++
          "\n\n請先修改這些酒譜並移除此材料，才能進行刪除。"), ?_, ?_, ?_, ?_, hmem, hsub⟩
    · simp only [requestDelete, hu, if_pos hpos]
    · exact ⟨fun _ => hlen.mp hpos, fun _ => rfl⟩
    · intro _
      exact ⟨rfl, rfl⟩
    · intro h
      exact absurd rfl h
  · refine ⟨showConfirm st "刪除庫存材料"
        ("確定要刪除「" ++ targetName st.ingredients id ++ "」嗎？") (.deleteIngredient id),
      ?_, ?_, ?_, ?_, hmem, hsub⟩
    · simp only [requestDelete, hu, if_neg hpos]
    · constructor
      · intro h
        cases h
      · intro h
        exact absurd (hlen.mpr h) hpos
    · intro h
      cases h
    · intro _
      exact ⟨rfl, rfl⟩

/-- The gin of the example state, listed by the stirred recipe, is blocked by it. -/
theorem requestDelete_blocking_names_witness :
    (∀ r ∈ exampleState.recipes, r.ingredients ≠ none) ∧
    ∃ st1, requestDelete exampleState "gin" .ingredient = .ok st1 ∧
      st1.dialog.type = .alert ∧
      blockingRecipes exampleState.recipes "gin" = [stirredRecipe] := by
  obtain ⟨st1, h1, h2, _, _, _, _⟩ := requestDelete_blocking_names exampleState "gin" exampleState_lists
  refine ⟨exampleState_lists, st1, h1, h2.mpr ?_, ?_⟩
  · exact ⟨stirredRecipe, by simp [exampleState], [⟨"gin", .num 45⟩], rfl,
      ⟨"gin", .num 45⟩, by simp, rfl⟩
  · rfl

/-- Claim C23, at the failing input: the second recipe lists `gin`, but the first has no
ingredient list; the request throws a `TypeError` on the first recipe, so the deletion is
not rejected by an alert and no blocking recipe is named. -/
theorem requestDelete_mixed_throws :
    (∃ r ∈ mixedState.recipes, r.references "gin") ∧
    requestDelete mixedState "gin" .ingredient = .error .typeError ∧
    ¬ ∃ st1, requestDelete mixedState "gin" .ingredient = .ok st1 := by
  have h : requestDelete mixedState "gin" .ingredient = .error .typeError := rfl
  refine ⟨⟨stirredRecipe, by simp [mixedState], [⟨"gin", .num 45⟩], rfl,
    ⟨"gin", .num 45⟩, by simp, rfl⟩, h, ?_⟩
  rintro ⟨st1, hst⟩
  rw [h] at hst
  cases hst

/-- The price `ceil(c / t / 10) * 10` for a cost `c` and a rate `t > 0`: it is positive
and `c / price` is at most `t` when `c > 0`. -/
theorem ceil_price_mul (c t : ℚ) (ht : 0 < t) :
    Num.ceil (Num.fin c / Num.fin t / 10) * 10 = Num.fin (((⌈c / t / 10⌉ : ℤ) : ℚ) * 10) ∧
    (0 < c → 0 < (((⌈c / t / 10⌉ : ℤ) : ℚ) * 10) ∧
      c / (((⌈c / t / 10⌉ : ℤ) : ℚ) * 10) ≤ t) := by
  obtain ⟨h1, h2⟩ := ceil_price c t ht
  refine ⟨by rw [h1, mul_comm], fun hc => ?_⟩
  obtain ⟨hk, hle⟩ := h2 hc
  have hq : (0 : ℚ) < ((⌈c / t / 10⌉ : ℤ) : ℚ) := by exact_mod_cast hk
  refine ⟨by positivity, ?_⟩
  rw [mul_comm]
  exact hle

/-- The price typed in the example of the quick calculator. -/
theorem typedPrice_priceNum : typedPrice.priceNum = 700 := by
  simp [QuickCalc.priceNum, typedPrice, QuickCalc.initial, parseFloatOrZero,
    Val.parseFloat, parseFloatStr_700]

/-- The volume of the bottle in the example of the quick calculator. -/
theorem typedPrice_volNum : typedPrice.volNum = 700 := by
  have h : typedPrice.v.parseFloat = Num.fin 700 := rfl
  simp [QuickCalc.volNum, h]

/-- The volume the gin of the examples is costed with. -/
theorem exampleGin_specVolume : specVolume exampleGin = 750 := by
  simp [specVolume, exampleGin]

/-- Claim C24, amended. In `SingleItemScreen` the cost per unit is `price / (volume || 1)`
and the suggested price of a pour (30 and 50 are listed) is `ceil(cost / 0.25 / 10) * 10`.
In the quick calculator the cost per millilitre is `priceNum / volNum` with
`volNum = parseFloat(v) || 700`, the rows are 30, 50, 60 and `volNum`, and the price of a
row for a rate of `r` percent, `r > 0`, is `ceil(cost / (r / 100) / 10) * 10`. Each price is
that ceiling, an integer, times 10, and whenever `cost > 0` the price is positive and
`cost / price` is at most the rate. -/
theorem neat_pour_prices :
    (∀ (ing : Ingredient) (a : ℚ),
      costPerUnit ing = Num.fin (ing.price / specVolume ing) ∧
      singleItemCost ing (Num.fin a) = Num.fin (ing.price / specVolume ing * a) ∧
      singleItemSuggest ing (Num.fin a) =
        Num.fin (((⌈ing.price / specVolume ing * a / (1 / 4) / 10⌉ : ℤ) : ℚ) * 10) ∧
      (0 < ing.price / specVolume ing * a →
        0 < ((⌈ing.price / specVolume ing * a / (1 / 4) / 10⌉ : ℤ) : ℚ) * 10 ∧
        ing.price / specVolume ing * a /
          (((⌈ing.price / specVolume ing * a / (1 / 4) / 10⌉ : ℤ) : ℚ) * 10) ≤ 1 / 4)) ∧
    singleItemSizes = [Num.fin 30, Num.fin 50] ∧
    (∀ (q : QuickCalc),
      q.volNum ≠ 0 ∧
      q.costPerMl = Num.fin (q.priceNum / q.volNum) ∧
      (∀ x : ℚ, q.v.parseFloat = Num.fin x → x ≠ 0 → q.volNum = x) ∧
      (q.v.parseFloat = Num.nan ∨ q.v.parseFloat = Num.fin 0 → q.volNum = 700) ∧
      q.rowVolumes = [Num.fin 30, Num.fin 50, Num.fin 60, Num.fin q.volNum] ∧
      ∀ (rate : Val) (r vol : ℚ), rate.toNumber = Num.fin r → 0 < r →
        q.rowCost (Num.fin vol) = Num.fin (q.priceNum / q.volNum * vol) ∧
        quickPrice (q.rowCost (Num.fin vol)) rate =
          Num.fin (((⌈q.priceNum / q.volNum * vol / (r / 100) / 10⌉ : ℤ) : ℚ) * 10) ∧
        (0 < q.priceNum / q.volNum * vol →
          0 < ((⌈q.priceNum / q.volNum * vol / (r / 100) / 10⌉ : ℤ) : ℚ) * 10 ∧
          q.priceNum / q.volNum * vol /
            (((⌈q.priceNum / q.volNum * vol / (r / 100) / 10⌉ : ℤ) : ℚ) * 10) ≤ r / 100)) := by
  refine ⟨?_, ?_, ?_⟩
  · intro ing a
    have hcpu : costPerUnit ing = Num.fin (ing.price / specVolume ing) := by
      rw [specVolume_eq, costPerUnit_eq]
    have hcost : singleItemCost ing (Num.fin a) =
        Num.fin (ing.price / specVolume ing * a) := by
      simp [singleItemCost, hcpu]
    refine ⟨hcpu, hcost, ?_, ?_⟩
    · unfold singleItemSuggest
      rw [hcost]
      exact (ceil_price_mul _ (1 / 4) (by norm_num)).1
    · exact (ceil_price_mul _ (1 / 4) (by norm_num)).2
  · simp [singleItemSizes]
  · intro q
    have hv := volNum_ne_zero q
    have hcpm : q.costPerMl = Num.fin (q.priceNum / q.volNum) := by
      simp [QuickCalc.costPerMl, hv]
    refine ⟨hv, hcpm, ?_, ?_, ?_, ?_⟩
    · intro x hx hx0
      simp [QuickCalc.volNum, hx, hx0]
    · rintro (h | h) <;> simp [QuickCalc.volNum, h]
    · simp [QuickCalc.rowVolumes]
    · intro rate r vol hr hpos
      have hcost : q.rowCost (Num.fin vol) = Num.fin (q.priceNum / q.volNum * vol) := by
        simp [QuickCalc.rowCost, hcpm]
      have hr100 : (0 : ℚ) < r / 100 := by positivity
      have hrate : rate.toNumber / 100 = Num.fin (r / 100) := by
        rw [hr]; simp
      refine ⟨hcost, ?_, ?_⟩
      · unfold quickPrice
        rw [hcost, hrate]
        exact (ceil_price_mul _ (r / 100) hr100).1
      · exact (ceil_price_mul _ (r / 100) hr100).2

/-- Witness of claim C24: 30 ml of the gin of the examples in `SingleItemScreen`, cost 24
and price 100; in the quick calculator with the price 700 typed for a bottle of 700 ml,
the row of 30 ml at 25 percent, cost 30 and price 120, and the row of the whole bottle at
30 percent, cost 700 and price 2340. -/
theorem neat_pour_prices_witness :
    singleItemSuggest exampleGin (Num.fin 30) = Num.fin 100 ∧
    quickPrice (typedPrice.rowCost (Num.fin 30)) typedPrice.rateA = Num.fin 120 ∧
    quickPrice (typedPrice.rowCost (Num.fin 700)) typedPrice.rateB = Num.fin 2340 := by
  have h1 := (neat_pour_prices.1 exampleGin 30).2.2.1
  have h2 := ((neat_pour_prices.2.2 typedPrice).2.2.2.2.2 (.num 25) 25 30 rfl (by norm_num)).2.1
  have h3 := ((neat_pour_prices.2.2 typedPrice).2.2.2.2.2 (.num 30) 30 700 rfl (by norm_num)).2.1
  have c1 : (⌈exampleGin.price / specVolume exampleGin * 30 / (1 / 4) / 10⌉ : ℤ) = 10 := by
    rw [exampleGin_specVolume, Int.ceil_eq_iff]
    have : exampleGin.price = 600 := rfl
    rw [this]; norm_num
  have c2 : (⌈typedPrice.priceNum / typedPrice.volNum * 30 / (25 / 100) / 10⌉ : ℤ) = 12 := by
    rw [typedPrice_priceNum, typedPrice_volNum, Int.ceil_eq_iff]; norm_num
  have c3 : (⌈typedPrice.priceNum / typedPrice.volNum * 700 / (30 / 100) / 10⌉ : ℤ) = 234 := by
    rw [typedPrice_priceNum, typedPrice_volNum, Int.ceil_eq_iff]; norm_num
  rw [c1] at h1
  rw [c2] at h2
  rw [c3] at h3
  refine ⟨?_, ?_, ?_⟩
  · rw [h1]; norm_num
  · have e : typedPrice.rateA = .num 25 := rfl
    rw [e, h2]; norm_num
  · have e : typedPrice.rateB = .num 30 := rfl
    rw [e, h3]; norm_num

/-- Counterexample to claim C24 as stated: in the quick calculator with the price `700`
and the volume field cleared, the cost per millilitre is `700 / 700 = 1`, not
`700 / 1 = 700` as `price / (volume || 1)` gives. -/
theorem quickCalc_cleared_volume :
    clearedVolume.costPerMl = Num.fin 1 ∧
    claimedQuickCostPerMl clearedVolume = Num.fin 700 ∧
    clearedVolume.costPerMl ≠ claimedQuickCostPerMl clearedVolume := by
  have hp : clearedVolume.priceNum = 700 := by
    simp [QuickCalc.priceNum, clearedVolume, QuickCalc.initial, parseFloatOrZero,
      Val.parseFloat, parseFloatStr_700]
  have hv : clearedVolume.v.parseFloat = Num.nan := by
    show parseFloatStr "" = Num.nan
    decide
  have h1 : clearedVolume.costPerMl = Num.fin 1 := by
    simp [QuickCalc.costPerMl, QuickCalc.volNum, hv, hp]
  have h2 : claimedQuickCostPerMl clearedVolume = Num.fin 700 := by
    simp [claimedQuickCostPerMl, hv, hp]
  refine ⟨h1, h2, ?_⟩
  rw [h1, h2]
  intro h
  have := Num.fin.inj h
  norm_num at this

/-- Claim C25. For an item whose `nameZh` is missing or empty, of either kind, `saveItem`
opens the alert `請輸入名稱` and leaves both collections, and the editor, unchanged. -/
theorem saveItem_nameless (st : AppState) (item : EditingItem) (now : String)
    (h : match item with
      | .ingredient d => d.nameZh = none ∨ d.nameZh = some ""
      | .recipe r => r.nameZh = none ∨ r.nameZh = some "") :
    (saveItem st item now).ingredients = st.ingredients ∧
    (saveItem st item now).recipes = st.recipes ∧
    (saveItem st item now).editor = st.editor ∧
    (saveItem st item now).dialog = ⟨true, .alert, "錯誤", "請輸入名稱", none⟩ := by
  cases item with
  | ingredient d =>
    have hn : nonEmptyText d.nameZh = false := by
      rcases h with h | h <;> rw [h] <;> rfl
    simp [saveItem, hn, showAlert]
  | recipe r =>
    have hn : nonEmptyText r.nameZh = false := by
      rcases h with h | h <;> rw [h] <;> rfl
    simp [saveItem, hn, showAlert]

/-- Witness of claim C25: the new ingredient of `startEdit`, whose name is still empty. -/
theorem saveItem_nameless_witness :
    (saveItem exampleState (.ingredient namelessDraft) "now").ingredients = [exampleGin] ∧
    (saveItem exampleState (.ingredient namelessDraft) "now").recipes = [stirredRecipe] :=
  ⟨(saveItem_nameless exampleState (.ingredient namelessDraft) "now" (Or.inr rfl)).1,
    (saveItem_nameless exampleState (.ingredient namelessDraft) "now" (Or.inr rfl)).2.1⟩

/-- Claim C26. Merging the same file a second time changes neither collection, and
merging the collections of a state into that state changes neither. -/
theorem handleImport_merge_idempotent (st : AppState) (data : ImportData) :
    (handleImport (handleImport st (some data) .merge) (some data) .merge).ingredients =
      (handleImport st (some data) .merge).ingredients ∧
    (handleImport (handleImport st (some data) .merge) (some data) .merge).recipes =
      (handleImport st (some data) .merge).recipes ∧
    (handleImport st (some ⟨some st.ingredients, some st.recipes⟩) .merge).ingredients =
      st.ingredients ∧
    (handleImport st (some ⟨some st.ingredients, some st.recipes⟩) .merge).recipes =
      st.recipes :=
  ⟨mergeIngredients_idem _ _, mergeRecipes_idem _ _, mergeIngredients_self _,
    mergeRecipes_self _⟩

end BarIntox
